import Mathlib

/-!
Verification of the Itinera travel-planner workflow core (`backend/flow.py`
and the request validation of `backend/api.py`).

The Python code is shallowly embedded:

* JSON-like Python values (the output of `json.loads`) are the inductive
  `JValue`, with numeric literals modelled as integers.
* `json.loads` and `json_repair.repair_json ∘ json.loads` are external to the
  repository, so the extractor `_parse_result` is parametrised by two
  functions, `pj` (plain parse) and `rp` (repair-then-parse), each returning
  `none` when the corresponding Python call would raise.
* Python string primitives used by `_parse_result` (`in`, `split`, `strip`)
  are implemented over `List Char` (`pyContains`, `pysplitList`, `pystrip`)
  with Python's left-to-right non-overlapping scan semantics.
* The six `Crew(...).kickoff()` calls delegate to an external LLM; they are
  modelled by an oracle `env : Nat → Nat → StageOut` giving, for each attempt
  and stage index, either the raw text returned or the exception raised.
* Python exceptions are `Except String`; prints are ignored except where the
  printed expression itself can raise (those subexpressions are kept).
-/

namespace Itinera

/-- A decoded JSON value as produced by Python's `json.loads`.  Numeric
literals are modelled as integers. -/
inductive JValue where
  | null
  | bool (b : Bool)
  | num (n : Int)
  | str (s : String)
  | arr (elems : List JValue)
  | obj (fields : List (String × JValue))

/-- Python truthiness of a decoded JSON value (`if not within_budget: ...`). -/
def JValue.truthy : JValue → Bool
  | .null => false
  | .bool b => b
  | .num n => n != 0
  | .str s => s.length != 0
  | .arr l => l.length != 0
  | .obj f => f.length != 0

/-- The numeric reading of a value where Python would use it in arithmetic
or an order comparison; `none` models a `TypeError`.  Python `bool` is an
`int` subtype, so booleans count as 0/1. -/
def JValue.asNum : JValue → Option Int
  | .num n => some n
  | .bool b => some (if b then (1 : Int) else 0)
  | _ => none

/-- Dictionary lookup on the field list of a JSON object (`d[k]` / `d.get(k)`
for a present key). -/
def jget (fields : List (String × JValue)) (key : String) : Option JValue :=
  (fields.find? (fun kv => kv.fst == key)).map (fun kv => kv.snd)

/-- Python `x == key` for a string `key` against a decoded JSON value:
true exactly for the equal string (numbers, booleans, containers compare
unequal to a string). -/
def isStrEq (key : String) : JValue → Bool
  | .str s => s == key
  | _ => false

/-- Python `key in v` for a string key: dict membership, list membership,
substring test on strings; `TypeError` (`none`) on the other types. -/
def pyContainsChars (pat : List Char) : List Char → Bool
  | [] => pat.isEmpty
  | c :: rest => pat.isPrefixOf (c :: rest) || pyContainsChars pat rest

def pyIn (key : String) : JValue → Option Bool
  | .obj fields => some (fields.any (fun kv => kv.fst == key))
  | .arr elems => some (elems.any (isStrEq key))
  | .str s => some (pyContainsChars key.toList s.toList)
  | _ => none

/-! ### Python string primitives used by `_parse_result` -/

/-- The backtick character. -/
def btick : Char := "`".toList.headD ' '

/-- Scanner for Python `s.split(sep)` with a non-empty separator
`s0 :: sepRest`: scan left to right, cutting at each non-overlapping
occurrence of the separator.  The second argument counts separator
characters still to be skipped after a match, which keeps the recursion
structural. -/
def pysplitGo (s0 : Char) (sepRest : List Char) : List Char → Nat → List (List Char)
  | [], _ => [[]]
  | _ :: rest, skip + 1 => pysplitGo s0 sepRest rest skip
  | c :: rest, 0 =>
    if (s0 :: sepRest).isPrefixOf (c :: rest) then
      [] :: pysplitGo s0 sepRest rest sepRest.length
    else
      (pysplitGo s0 sepRest rest 0).modifyHead (fun p => c :: p)

/-- Python `s.split(sep)` for a non-empty separator `s0 :: sepRest`. -/
def pysplitList (s0 : Char) (sepRest : List Char) (l : List Char) : List (List Char) :=
  pysplitGo s0 sepRest l 0

/-- Python `s.split(sep)` (the separators in `flow.py` are non-empty literals;
an empty separator would raise in Python and is mapped to the identity
split here). -/
def pysplitL (sep : List Char) (l : List Char) : List (List Char) :=
  match sep with
  | [] => [l]
  | s0 :: rest => pysplitList s0 rest l

/-- Python `s.strip()`: drop whitespace from both ends. -/
def pystrip (cs : List Char) : List Char :=
  ((cs.dropWhile Char.isWhitespace).reverse.dropWhile Char.isWhitespace).reverse

/-- The characters of the tag `"```json"` searched for by `_parse_result`. -/
def jfenceChars : List Char := "```json".toList

/-- The characters of a plain fence `"```"`. -/
def tfenceChars : List Char := "```".toList

/-- The candidate substring `_parse_result` feeds to `json.loads`
(`flow.py` lines 328-333): the text after the first ` ```json `, cut at the
following ` ``` `, when the tag occurs; else the text between the first two
` ``` ` fences; else the whole text.  The first two branches `strip` the
candidate, the third does not. -/
def extractCandidate (result_str : String) : String :=
  let cs := result_str.toList
  if pyContainsChars jfenceChars cs then
    (pystrip ((pysplitL tfenceChars ((pysplitL jfenceChars cs).getD 1 [])).getD 0 [])).asString
  else if pyContainsChars tfenceChars cs then
    (pystrip ((pysplitL tfenceChars ((pysplitL tfenceChars cs).getD 1 [])).getD 0 [])).asString
  else result_str

/-- `TravelPlannerFlow._parse_result` (`flow.py` lines 318-342), for a raw
text `result_str` (the `.raw`/`.output`/`str()` extraction yields the text
itself here).  `pj` models `json.loads`, `rp` models
`json.loads(repair_json(·))`; each returns `none` where Python would raise.
The function is total: parse failure of both passes yields the
`{"raw_output": <original text>}` fallback rather than an exception. -/
def parseResult (pj rp : String → Option JValue) (result_str : String) : JValue :=
  let json_str := extractCandidate result_str
  match pj json_str with
  | some v => v
  | none =>
    match rp json_str with
    | some v => v
    | none => .obj [("raw_output", .str result_str)]

/-! ### Python `str()` of decoded JSON values (used in the failure message) -/

mutual

/-- Python `repr` of a decoded JSON value (element rendering inside
containers). -/
def JValue.pyrepr : JValue → String
  | .null => "None"
  | .bool b => if b then "True" else "False"
  | .num n => toString n
  | .str s => "'" ++ s ++ "'"
  | .arr l => "[" ++ String.intercalate ", " (pyreprList l) ++ "]"
  | .obj f => "\x7b" ++ String.intercalate ", " (pyreprFields f) ++ "\x7d"

def pyreprList : List JValue → List String
  | [] => []
  | v :: vs => v.pyrepr :: pyreprList vs

def pyreprFields : List (String × JValue) → List String
  | [] => []
  | (k, v) :: vs => ("'" ++ k ++ "': " ++ v.pyrepr) :: pyreprFields vs

end

/-- Python `str()` of a decoded JSON value, as used by f-string
interpolation. -/
def JValue.pystr : JValue → String
  | .str s => s
  | v => v.pyrepr

/-! ### The budget-realism auditor (`validate_budget_realistic`, lines 55-96)

The auditor receives the whole `inputs` dict; `ReqInputs` is the validated
form of that dict inside `run` (all six base fields present, currency
defaulted). -/

/-- The validated trip inputs threaded through `run` after
`validate_inputs` succeeded and `currency` was defaulted. -/
structure ReqInputs where
  interests : String
  budget : Int
  duration : Int
  start_city : String
  season : String
  people : Int
  currency : String
deriving DecidableEq

/-- Result dict of `validate_budget_realistic`. -/
structure AuditResult where
  realistic : Bool
  issues : List String
deriving DecidableEq

def total_issue (total min_expected : Int) : String :=
  "Total cost " ++ toString total ++ " INR is unrealistically low. " ++
  "Minimum expected: " ++ toString min_expected ++ " INR"

def acc_issue (acc_total min_acc duration : Int) : String :=
  "Accommodation cost " ++ toString acc_total ++ " INR is too low. " ++
  "Minimum: " ++ toString min_acc ++ " INR for " ++ toString duration ++ " nights"

def meal_issue (meal_total min_meals : Int) : String :=
  "Meal cost " ++ toString meal_total ++ " INR seems low. " ++
  "Expected minimum: " ++ toString min_meals ++ " INR"

/-- Python `sum(item.get('cost', 0) for item in items)`: `none` models the
exception Python raises when an item is not a dict or a `cost` value is not
a number. -/
def sumCosts (items : List JValue) : Option Int :=
  items.foldl
    (fun acc item =>
      match acc, item with
      | some a, .obj fields =>
        match jget fields "cost" with
        | none => some a
        | some v =>
          match v.asNum with
          | some n => some (a + n)
          | none => none
      | _, _ => none)
    (some 0)

/-- The accommodation block of `validate_budget_realistic` (lines 71-80):
checked only when the key is present and its value is a non-empty list. -/
def accomIssues (budget_data : JValue) (duration : Int) : Option (List String) := do
  let present ← pyIn "accommodation" budget_data
  if present then
    match budget_data with
    | .obj bdF =>
      match jget bdF "accommodation" with
      | some (.arr acc_items) =>
        if 0 < acc_items.length then
          let acc_total ← sumCosts acc_items
          let min_acc := duration * 800
          pure (if acc_total < min_acc then [acc_issue acc_total min_acc duration] else [])
        else pure []
      | _ => pure []
    | _ => none
  else pure []

/-- The meals block of `validate_budget_realistic` (lines 82-91): checked
whenever the key is present and its value is a list (also an empty one). -/
def mealIssues (budget_data : JValue) (people duration : Int) : Option (List String) := do
  let present ← pyIn "meals" budget_data
  if present then
    match budget_data with
    | .obj bdF =>
      match jget bdF "meals" with
      | some (.arr meal_items) =>
        let meal_total ← sumCosts meal_items
        let min_meals := people * duration * 3 * 150
        pure (if meal_total < min_meals then [meal_issue meal_total min_meals] else [])
      | _ => pure []
    | _ => none
  else pure []

/-- Python `v.get(k, default)` preliminaries: the value must be a dict,
otherwise Python raises `AttributeError` (modelled as `none` here for the
auditor's navigation). -/
def asObj : JValue → Option (List (String × JValue))
  | .obj fields => some fields
  | _ => none

/-- `TravelPlannerFlow.validate_budget_realistic` (`flow.py` lines 55-96).
`none` models an exception escaping the function (it has no handler);
otherwise the `{'realistic': ..., 'issues': ...}` dict is returned. -/
def validate_budget_realistic (plan : JValue) (inputs : ReqInputs) : Option AuditResult := do
  let planF ← asObj plan
  let budgetF ← asObj ((jget planF "budget").getD (.obj []))
  let budget_data := (jget budgetF "plan").getD (.obj [])
  let total ← ((jget budgetF "total_cost").getD (.num 0)).asNum
  let min_expected := inputs.people * inputs.duration * 1000
  let issues_total := if total < min_expected then [total_issue total min_expected] else []
  let issues_acc ← accomIssues budget_data inputs.duration
  let issues_meals ← mealIssues budget_data inputs.people inputs.duration
  let issues := issues_total ++ issues_acc ++ issues_meals
  pure { realistic := issues.length == 0, issues := issues }

/-! ### Pre-flight validation (`validate_inputs`, `validate_feasibility`) -/

/-- The raw `inputs` dict handed to `run`: each required key may be absent.
Values are typed as the API layer supplies them (ints for the numeric
fields, strings elsewhere). -/
structure TripInputs where
  interests : Option String
  budget : Option Int
  duration : Option Int
  start_city : Option String
  season : Option String
  people : Option Int
  currency : Option String
deriving DecidableEq

/-- The required-field filter of `validate_inputs` (line 17-18), in source
order. -/
def missingFields (i : TripInputs) : List String :=
  (if i.interests.isNone then ["interests"] else []) ++
  (if i.budget.isNone then ["budget"] else []) ++
  (if i.duration.isNone then ["duration"] else []) ++
  (if i.start_city.isNone then ["start_city"] else []) ++
  (if i.season.isNone then ["season"] else []) ++
  (if i.people.isNone then ["people"] else [])

/-- `TravelPlannerFlow.validate_inputs` (`flow.py` lines 15-32), fused with
the extraction of the validated fields and the `currency` defaulting of
`run` lines 111-112 (which happens before anything else observable).
`Except.error` models the `ValueError` raised. -/
def validate_inputs (i : TripInputs) : Except String ReqInputs :=
  match i.interests, i.budget, i.duration, i.start_city, i.season, i.people with
  | some it, some b, some d, some sc, some se, some p =>
    if b ≤ 0 then .error "Budget must be greater than 0"
    else if d ≤ 0 then .error "Duration must be at least 1 day"
    else if p ≤ 0 then .error "Number of people must be at least 1"
    else .ok { interests := it, budget := b, duration := d, start_city := sc,
               season := se, people := p, currency := i.currency.getD "INR" }
  | _, _, _, _, _, _ =>
    .error ("Missing required fields: " ++ String.intercalate ", " (missingFields i))

/-- The message of the infeasibility branch of `validate_feasibility`,
citing the computed minimum `people * duration * 1500`. -/
def infeasible_message (budget people duration : Int) : String :=
  "Budget " ++ toString budget ++ " INR is insufficient for " ++ toString people ++
  " people for " ++ toString duration ++ " days. Minimum realistic budget: " ++
  toString (people * duration * 1500) ++ " INR (1500 INR per person per day)."

/-- Result dict of `validate_feasibility`. -/
structure FeasResult where
  feasible : Bool
  message : Option String
deriving DecidableEq

/-- `TravelPlannerFlow.validate_feasibility` (`flow.py` lines 34-53).  The
high-budget branch only prints a warning (see `high_budget_warning`); it
does not affect the returned dict. -/
def validate_feasibility (budget people duration : Int) : FeasResult :=
  let min_total := people * duration * 1500
  if budget < min_total then
    { feasible := false, message := some (infeasible_message budget people duration) }
  else
    { feasible := true, message := none }

/-- Guard of the non-blocking warning print in `validate_feasibility`
(lines 49-51). -/
def high_budget_warning (budget people duration : Int) : Bool :=
  budget > people * duration * 50000

/-- `TravelRequest.validate_season` of `backend/api.py` (lines 53-58): the
pydantic validator run while the API request is parsed, before the workflow
is invoked.  Python `.lower()` is modelled character-wise. -/
def pyLower (s : String) : String := (s.toList.map Char.toLower).asString

def season_err_msg : String :=
  "Season must be one of: summer, winter, monsoon, spring, autumn"

def valid_seasons : List String := ["summer", "winter", "monsoon", "spring", "autumn"]

def validate_season (v : String) : Except String String :=
  if valid_seasons.contains (pyLower v) then .ok (pyLower v)
  else .error season_err_msg

/-! ### The retry loop (`TravelPlannerFlow.run`, lines 98-316)

Each `Crew(...).kickoff()` call is external (an LLM invocation); the oracle
`env attempt stage` supplies either the raw text it returned or the message
of the exception it raised.  The prompt building (`tasks.py`) and the
`inputs['destination_city']` assignment of line 151 only feed that external
layer and are absorbed by the oracle.  Prints are dropped, except that the
subexpressions evaluated inside f-strings which can themselves raise
(`​.get` on a non-dict, `len()` of a non-sized value) are kept, since such an
exception aborts the attempt exactly like any other. -/

/-- Outcome of one external `kickoff()` call. -/
inductive StageOut where
  | text (raw : String)
  | exn (msg : String)
deriving DecidableEq

def stageRun : StageOut → Except String String
  | .text r => .ok r
  | .exn m => .error m

/-- Python `v.get(key, default)`: dict lookup with default; `AttributeError`
on any non-dict value. -/
def pyGet (v : JValue) (key : String) (default : JValue) : Except String JValue :=
  match v with
  | .obj fields => .ok ((jget fields key).getD default)
  | _ => .error ("AttributeError: no attribute get (key " ++ key ++ ")")

/-- Python `len(v)` for decoded JSON values; `TypeError` on the unsized
ones. -/
def pyLen : JValue → Except String Nat
  | .str s => .ok s.length
  | .arr l => .ok l.length
  | .obj f => .ok f.length
  | _ => .error "TypeError: object has no len()"

/-- Everything one attempt computes up to and including `computed_total`
and the realism audit (`flow.py` lines 131-258). -/
structure StagesOut where
  city_data : JValue
  destination_city : JValue
  city_info : JValue
  transport_info : JValue
  itinerary_data : JValue
  budget_data : JValue
  budget_validation : JValue
  within_budget : JValue
  computed_total : JValue
  validation_result : AuditResult

/-- The six sequential stages of one attempt (`flow.py` lines 131-258),
with every subexpression that can raise kept in source order. -/
def runStages (pj rp : String → Option JValue) (env : Nat → Nat → StageOut)
    (k : Nat) (inputs : ReqInputs) : Except String StagesOut := do
  let raw0 ← stageRun (env k 0)
  let city_data := parseResult pj rp raw0
  let destination_city ← pyGet city_data "destination_city" (.str "Unknown")
  let _ ← pyGet city_data "reasoning" (.str "N/A")
  let raw1 ← stageRun (env k 1)
  let city_info := parseResult pj rp raw1
  let attractions ← pyGet city_info "attractions" (.arr [])
  let _ ← pyLen attractions
  let raw2 ← stageRun (env k 2)
  let transport_info := parseResult pj rp raw2
  let raw3 ← stageRun (env k 3)
  let itinerary_data := parseResult pj rp raw3
  let itinerary_days ← pyGet itinerary_data "itinerary" (.arr [])
  let _ ← pyLen itinerary_days
  let raw4 ← stageRun (env k 4)
  let budget_data := parseResult pj rp raw4
  let _ ← pyGet budget_data "total_estimated_cost" (.num 0)
  let raw5 ← stageRun (env k 5)
  let budget_validation := parseResult pj rp raw5
  let within_budget ← pyGet budget_validation "within_budget" (.bool false)
  let default_total ← pyGet budget_data "total_estimated_cost" (.num 0)
  let computed_total ← pyGet budget_validation "computed_total" default_total
  match validate_budget_realistic
      (.obj [("budget", .obj [("plan", budget_data), ("total_cost", computed_total)])])
      inputs with
  | none => Except.error "TypeError in validate_budget_realistic"
  | some validation_result =>
    pure { city_data, destination_city, city_info, transport_info, itinerary_data,
           budget_data, budget_validation, within_budget, computed_total,
           validation_result }

/-- The fields of the compiled `final_plan` dict that are threaded from the
workflow state (`flow.py` lines 274-300).  `generated_at` (a wall-clock
timestamp) is omitted. -/
structure Metadata where
  trip_duration : Int
  travelers : Int
  currency : String
  start_city : String
  attempts : Nat

structure BudgetSection where
  plan : JValue
  validation : JValue
  total_cost : JValue
  within_budget : JValue
  budget_limit : Int
  realistic : Bool
  validation_issues : List String

structure FinalPlan where
  metadata : Metadata
  city : JValue
  selection_reasoning : JValue
  research : JValue
  transportation : JValue
  itinerary : JValue
  budget : BudgetSection
  recommendations : JValue

/-- Control outcome of the body of one loop iteration, re-raising excluded. -/
inductive BodyOk where
  | retryShrink
  | success (plan : FinalPlan)

/-- The message of the `ValueError` raised on the last over-budget attempt
(`flow.py` lines 266-270), citing the original budget and the last computed
total. -/
def budget_fail_msg (original_budget : Int) (currency : String) (max_retries : Nat)
    (computed_total : JValue) : String :=
  "Could not generate plan within budget " ++ toString original_budget ++ " " ++
  currency ++ " after " ++ toString max_retries ++ " attempts. Final cost: " ++
  computed_total.pystr ++ " " ++ currency ++
  ". Try increasing your budget or reducing trip duration/travelers."

/-- The branch on `within_budget` after the stages completed
(`flow.py` lines 260-270), else the final-plan compilation and return
(lines 272-306). -/
def attemptBranch (k : Nat) (inputs : ReqInputs) (original_budget : Int)
    (max_retries : Nat) (so : StagesOut) : Except String BodyOk :=
  if !so.within_budget.truthy && decide (k < max_retries - 1) then
    .ok .retryShrink
  else if !so.within_budget.truthy && decide (k = max_retries - 1) then
    .error (budget_fail_msg original_budget inputs.currency max_retries so.computed_total)
  else
    match pyGet so.city_data "reasoning" (.str ""),
          pyGet so.budget_validation "recommendations" (.arr []) with
    | .error e, _ => .error e
    | .ok _, .error e => .error e
    | .ok selection_reasoning, .ok recommendations =>
      .ok (.success {
        metadata := { trip_duration := inputs.duration, travelers := inputs.people,
                      currency := inputs.currency, start_city := inputs.start_city,
                      attempts := k + 1 },
        city := so.destination_city,
        selection_reasoning := selection_reasoning,
        research := so.city_info,
        transportation := so.transport_info,
        itinerary := so.itinerary_data,
        budget := { plan := so.budget_data, validation := so.budget_validation,
                    total_cost := so.computed_total,
                    within_budget := so.within_budget,
                    budget_limit := original_budget,
                    realistic := so.validation_result.realistic,
                    validation_issues := so.validation_result.issues },
        recommendations := recommendations })

/-- The `try:` body of one loop iteration (`flow.py` lines 128-306):
run the stages, then `attemptBranch`.  `Except.error` is any exception
reaching the `except` handler of line 308. -/
def attemptCore (pj rp : String → Option JValue) (env : Nat → Nat → StageOut)
    (k : Nat) (inputs : ReqInputs) (original_budget : Int) (max_retries : Nat) :
    Except String BodyOk :=
  match runStages pj rp env k inputs with
  | .error e => .error e
  | .ok so => attemptBranch k inputs original_budget max_retries so

/-- The working budget of the next over-budget retry:
`int(original_budget * 0.85)` (`flow.py` line 262).  Exact for
`0 ≤ original_budget < 2.5e14`, which covers every budget a 64-bit caller
can meaningfully supply. -/
def shrunk_budget (original_budget : Int) : Int := 17 * original_budget / 20

/-- The `for attempt in range(max_retries)` loop of `run` (lines 127-316),
with `fuel` the number of remaining iterations (`k + fuel = max_retries` at
every call from `runT`).  Besides the Python result it returns the list of
working budgets at the start of each executed attempt, newest last — the
budget each attempt's stage-1 task is built from. -/
def runLoop (pj rp : String → Option JValue) (env : Nat → Nat → StageOut)
    (original_budget : Int) (max_retries : Nat) :
    Nat → Nat → ReqInputs → Except String FinalPlan × List Int
  | 0, _, _ =>
    (.error ("Failed to generate plan after " ++ toString max_retries ++ " attempts"), [])
  | fuel + 1, k, inputs =>
    match attemptCore pj rp env k inputs original_budget max_retries with
    | .ok .retryShrink =>
      let inputs' := { inputs with budget := shrunk_budget original_budget }
      let r := runLoop pj rp env original_budget max_retries fuel (k + 1) inputs'
      (r.1, inputs.budget :: r.2)
    | .ok (.success plan) => (.ok plan, [inputs.budget])
    | .error e =>
      if k < max_retries - 1 then
        let r := runLoop pj rp env original_budget max_retries fuel (k + 1) inputs
        (r.1, inputs.budget :: r.2)
      else
        (.error e, [inputs.budget])

/-- `TravelPlannerFlow.run` (`flow.py` lines 98-316), instrumented with the
per-attempt budget trace (second component; it is empty exactly when the
pre-flight validation failed and no attempt — hence no model call — was
made). -/
def runT (pj rp : String → Option JValue) (env : Nat → Nat → StageOut)
    (raw : TripInputs) (max_retries : Nat) : Except String FinalPlan × List Int :=
  match validate_inputs raw with
  | .error e => (.error e, [])
  | .ok inputs =>
    let feas := validate_feasibility inputs.budget inputs.people inputs.duration
    if feas.feasible then
      runLoop pj rp env inputs.budget max_retries max_retries 0 inputs
    else
      (.error (feas.message.getD ""), [])

/-- `run`'s Python-visible result. -/
def run (pj rp : String → Option JValue) (env : Nat → Nat → StageOut)
    (raw : TripInputs) (max_retries : Nat) : Except String FinalPlan :=
  (runT pj rp env raw max_retries).1

/-- The `/plan/sync` entry of `backend/api.py`: pydantic parses and
validates the request — running `validate_season` — before the endpoint
body calls `flow.run(request.dict())`.  The other pydantic field
constraints are independent of the season and omitted here. -/
def create_plan_sync_request (pj rp : String → Option JValue)
    (env : Nat → Nat → StageOut) (interests : String) (budget duration : Int)
    (start_city season : String) (people : Int) (currency : Option String)
    (max_retries : Nat) : Except String FinalPlan × List Int :=
  match validate_season season with
  | .error e => (.error e, [])
  | .ok se =>
    runT pj rp env
      { interests := some interests, budget := some budget, duration := some duration,
        start_city := some start_city, season := some se, people := some people,
        currency := currency }
      max_retries

/-! ### The extraction rule of the spec, in the spec's own vocabulary
(for comparison with `extractCandidate`) -/

/-- Index of the first occurrence of `pat` in a character list, if any. -/
def firstOccIdx (pat : List Char) : List Char → Option Nat
  | [] => if pat.isEmpty then some 0 else none
  | c :: rest =>
    if pat.isPrefixOf (c :: rest) then some 0
    else (firstOccIdx pat rest).map (fun i => i + 1)

/-- Modelled from the spec: "the content between the first ```json fence
and the next ``` fence" — the text following the first occurrence of
` ```json `, up to the first subsequent occurrence of ` ``` `, stripped
(the fenced-JSON candidate the Extractor is said to parse). -/
def specFencedContent (s : String) : Option String :=
  let cs := s.toList
  match firstOccIdx jfenceChars cs with
  | none => none
  | some i =>
    let rest := cs.drop (i + jfenceChars.length)
    match firstOccIdx tfenceChars rest with
    | none => none
    | some j => some (pystrip (rest.take j)).asString

/-! ### Lemmas about the Python split scan -/

theorem isPrefixOf_append_self (p l : List Char) : p.isPrefixOf (p ++ l) = true := by
  induction p with
  | nil => simp [List.isPrefixOf]
  | cons a as ih => simp [List.isPrefixOf, ih]

theorem pysplitGo_skip (s0 : Char) (pr : List Char) :
    ∀ (l : List Char) (n : Nat), pysplitGo s0 pr l n = pysplitGo s0 pr (l.drop n) 0
  | [], 0 => rfl
  | [], _ + 1 => rfl
  | _ :: _, 0 => rfl
  | _ :: rest, n + 1 => by
    simp only [pysplitGo, List.drop_succ_cons]
    exact pysplitGo_skip s0 pr rest n

theorem pysplitList_sep_prefix (s0 : Char) (pr u : List Char) :
    pysplitList s0 pr ((s0 :: pr) ++ u) = [] :: pysplitList s0 pr u := by
  show pysplitGo s0 pr (s0 :: (pr ++ u)) 0 = [] :: pysplitGo s0 pr u 0
  rw [pysplitGo]
  have hpre : (s0 :: pr).isPrefixOf (s0 :: (pr ++ u)) = true := isPrefixOf_append_self _ u
  rw [if_pos hpre, pysplitGo_skip, List.drop_left]

theorem pysplitList_free_append (s0 : Char) (pr : List Char) (b u : List Char)
    (hb : ∀ c ∈ b, c ≠ s0) :
    pysplitList s0 pr (b ++ u) = (pysplitList s0 pr u).modifyHead (fun p => b ++ p) := by
  induction b with
  | nil =>
    cases h : pysplitList s0 pr u <;> simp [h]
  | cons c b' ih =>
    have hc : c ≠ s0 := hb c (List.mem_cons_self c b')
    have hpre : (s0 :: pr).isPrefixOf (c :: (b' ++ u)) = false := by
      simp [List.isPrefixOf]
      intro h
      exact absurd h.symm hc
    show pysplitGo s0 pr (c :: (b' ++ u)) 0 = _
    rw [pysplitGo, if_neg (by simp [hpre])]
    have ih' := ih (fun x hx => hb x (List.mem_cons_of_mem c hx))
    show (pysplitList s0 pr (b' ++ u)).modifyHead (fun p => c :: p) = _
    rw [ih']
    cases h : pysplitList s0 pr u <;> simp [h]

theorem pysplitList_ne_nil (s0 : Char) (pr : List Char) :
    ∀ l : List Char, pysplitList s0 pr l ≠ []
  | [] => by simp [pysplitList, pysplitGo]
  | c :: rest => by
    show pysplitGo s0 pr (c :: rest) 0 ≠ []
    rw [pysplitGo]
    split
    · simp
    · have := pysplitList_ne_nil s0 pr rest
      show (pysplitList s0 pr rest).modifyHead _ ≠ []
      cases h : pysplitList s0 pr rest with
      | nil => exact absurd h this
      | cons x xs => simp

theorem pysplitList_free (s0 : Char) (pr : List Char) (l : List Char)
    (h : ∀ c ∈ l, c ≠ s0) : pysplitList s0 pr l = [l] := by
  have := pysplitList_free_append s0 pr l [] h
  simpa [pysplitList, pysplitGo] using this

theorem pyContains_nil_pat : ∀ l : List Char, pyContainsChars [] l = true
  | [] => rfl
  | _ :: _ => by simp [pyContainsChars, List.isPrefixOf]

theorem pyContains_decomp (pat a r : List Char) :
    pyContainsChars pat (a ++ pat ++ r) = true := by
  induction a with
  | nil =>
    cases pat with
    | nil => simpa using pyContains_nil_pat r
    | cons p ps =>
      show pyContainsChars (p :: ps) (p :: (ps ++ r)) = true
      simp [pyContainsChars]
  | cons c a' ih =>
    show pyContainsChars pat (c :: (a' ++ pat ++ r)) = true
    simp [pyContainsChars]
    exact Or.inr (by simpa [List.append_assoc] using ih)

theorem isPrefixOf_cons_cons (a b : Char) (as bs : List Char) :
    (a :: as).isPrefixOf (b :: bs) = (a == b && as.isPrefixOf bs) := rfl

theorem pysplitList_cons_no_match (s0 : Char) (pr : List Char) (c : Char) (l : List Char)
    (h : (s0 :: pr).isPrefixOf (c :: l) = false) :
    pysplitList s0 pr (c :: l) = (pysplitList s0 pr l).modifyHead (fun p => c :: p) := by
  show pysplitGo s0 pr (c :: l) 0 = _
  rw [pysplitGo, if_neg (by simp [h])]
  rfl

theorem pyContains_tfence_of_jfence :
    ∀ l : List Char, pyContainsChars jfenceChars l = true →
      pyContainsChars tfenceChars l = true := by
  intro l
  induction l with
  | nil => intro h; exact absurd h (by decide)
  | cons c rest ih =>
    intro h
    simp [pyContainsChars] at h ⊢
    rcases h with h | h
    · left
      have htj : tfenceChars <+: jfenceChars := ⟨"json".toList, by decide⟩
      exact htj.trans h
    · right
      exact ih h

theorem jfence_cons_eq : jfenceChars = btick :: "``json".toList := by decide

theorem tfence_cons_eq : tfenceChars = btick :: "``".toList := by decide

/-- After a plain fence that is not extended into a `json` tag (and not
glued into one by one or two extra backticks), the ` ```json `-split scan
just walks over the three backticks. -/
theorem pysplit_jsep_over_tfence (C : List Char)
    (hc : ("json".toList).isPrefixOf C = false)
    (h1 : ("`json".toList).isPrefixOf C = false)
    (h2 : ("``json".toList).isPrefixOf C = false) :
    pysplitList btick ("``json".toList) (tfenceChars ++ C) =
      (pysplitList btick ("``json".toList) C).modifyHead (fun p => tfenceChars ++ p) := by
  have hj : jfenceChars = btick :: btick :: btick :: "json".toList := by decide
  have ht : tfenceChars ++ C = btick :: btick :: btick :: C := by
    rw [show tfenceChars = [btick, btick, btick] from by decide]
    rfl
  rw [ht]
  have c1 : (btick :: "``json".toList).isPrefixOf (btick :: btick :: btick :: C) = false := by
    rw [show ("``json".toList) = btick :: btick :: "json".toList from by decide]
    simp [isPrefixOf_cons_cons]
    simpa using hc
  have c2 : (btick :: "``json".toList).isPrefixOf (btick :: btick :: C) = false := by
    rw [show ("``json".toList) = btick :: "`json".toList from by decide]
    simp [isPrefixOf_cons_cons]
    simpa using h1
  have c3 : (btick :: "``json".toList).isPrefixOf (btick :: C) = false := by
    simp [isPrefixOf_cons_cons]
    simpa using h2
  rw [pysplitList_cons_no_match _ _ _ _ c1, pysplitList_cons_no_match _ _ _ _ c2,
      pysplitList_cons_no_match _ _ _ _ c3]
  cases h : pysplitList btick ("``json".toList) C with
  | nil => exact absurd h (pysplitList_ne_nil _ _ _)
  | cons x xs =>
    simp [List.modifyHead]
    rw [show tfenceChars = [btick, btick, btick] from by decide]
    rfl

/-- Head entry of the ` ```json `-split of `B ++ "```" ++ C` for
backtick-free `B` and non-glue `C`: it is `B` followed by nothing or by a
full plain fence. -/
theorem branch1_entry (B C : List Char) (hB : ∀ c ∈ B, c ≠ btick)
    (h1 : ("`json".toList).isPrefixOf C = false)
    (h2 : ("``json".toList).isPrefixOf C = false) :
    ∃ D : List Char,
      (pysplitList btick ("``json".toList) (B ++ tfenceChars ++ C)).getD 0 [] = B ++ D ∧
      (D = [] ∨ ∃ E : List Char, D = tfenceChars ++ E) := by
  have hfree := pysplitList_free_append btick ("``json".toList) B (tfenceChars ++ C) hB
  rw [List.append_assoc, hfree]
  by_cases hc : ("json".toList).isPrefixOf C = true
  · obtain ⟨C', rfl⟩ : "json".toList <+: C := List.isPrefixOf_iff_prefix.mp hc
    have hjoin : tfenceChars ++ ("json".toList ++ C') = (btick :: "``json".toList) ++ C' := by
      rw [show (btick :: "``json".toList) = tfenceChars ++ "json".toList from by decide]
      simp [List.append_assoc]
    rw [hjoin, pysplitList_sep_prefix]
    exact ⟨[], by simp [List.modifyHead], Or.inl rfl⟩
  · have hc' : ("json".toList).isPrefixOf C = false := by
      cases hcv : ("json".toList).isPrefixOf C with
      | true => exact absurd hcv hc
      | false => rfl
    rw [pysplit_jsep_over_tfence C hc' h1 h2]
    cases h : pysplitList btick ("``json".toList) C with
    | nil => exact absurd h (pysplitList_ne_nil _ _ _)
    | cons x xs =>
      refine ⟨tfenceChars ++ x, ?_, Or.inr ⟨x, rfl⟩⟩
      simp [List.modifyHead]

/-- A backtick-free list followed by nothing or by a plain fence splits at
` ``` ` with head exactly the backtick-free part. -/
theorem tsplit_head (B D : List Char) (hB : ∀ c ∈ B, c ≠ btick)
    (hD : D = [] ∨ ∃ E : List Char, D = tfenceChars ++ E) :
    (pysplitL tfenceChars (B ++ D)).getD 0 [] = B := by
  rcases hD with rfl | ⟨E, rfl⟩
  · rw [List.append_nil]
    show (pysplitList btick ("``".toList) B).getD 0 [] = B
    rw [pysplitList_free _ _ _ hB]
    rfl
  · show (pysplitList btick ("``".toList) (B ++ (tfenceChars ++ E))).getD 0 [] = B
    rw [pysplitList_free_append _ _ _ _ hB,
        show tfenceChars = (btick :: "``".toList) from by decide,
        pysplitList_sep_prefix]
    simp [List.modifyHead]

theorem pysplitL_jfence (l : List Char) :
    pysplitL jfenceChars l = pysplitList btick ("``json".toList) l := by
  rw [jfence_cons_eq]
  rfl

theorem pysplitL_tfence (l : List Char) :
    pysplitL tfenceChars l = pysplitList btick ("``".toList) l := by
  rw [tfence_cons_eq]
  rfl

/-- Branch (1) of the extractor on a well-fenced text: prose, a
` ```json ` tag, backtick-free content, a closing fence, and a non-glue
remainder — the candidate is the stripped content. -/
theorem extract_branch1 (s : String) (A B C : List Char)
    (hs : s.toList = A ++ jfenceChars ++ B ++ tfenceChars ++ C)
    (hA : ∀ c ∈ A, c ≠ btick) (hB : ∀ c ∈ B, c ≠ btick)
    (h1 : ("`json".toList).isPrefixOf C = false)
    (h2 : ("``json".toList).isPrefixOf C = false) :
    extractCandidate s = (pystrip B).asString := by
  have hcj : pyContainsChars jfenceChars s.toList = true := by
    rw [hs]
    have := pyContains_decomp jfenceChars A (B ++ tfenceChars ++ C)
    simpa [List.append_assoc] using this
  have hsplit : pysplitL jfenceChars s.toList =
      A :: pysplitList btick ("``json".toList) (B ++ tfenceChars ++ C) := by
    rw [pysplitL_jfence, hs,
        show A ++ jfenceChars ++ B ++ tfenceChars ++ C =
          A ++ (jfenceChars ++ (B ++ tfenceChars ++ C)) from by simp [List.append_assoc],
        pysplitList_free_append _ _ _ _ hA,
        show jfenceChars ++ (B ++ tfenceChars ++ C) =
          (btick :: "``json".toList) ++ (B ++ tfenceChars ++ C) from by rw [jfence_cons_eq],
        pysplitList_sep_prefix]
    simp [List.modifyHead]
  obtain ⟨D, hD, hDshape⟩ := branch1_entry B C hB h1 h2
  simp only [extractCandidate, hcj, if_true]
  rw [hsplit]
  rw [List.getD_cons_succ]
  have hx : (pysplitList btick ("``json".toList) (B ++ tfenceChars ++ C)).getD 0 [] = B ++ D := hD
  rw [hx, tsplit_head B D hB hDshape]

/-- Branch (2): no ` ```json ` tag anywhere, a first fenced block with
backtick-free surroundings — the candidate is the stripped content of that
block. -/
theorem extract_branch2 (s : String) (A B C : List Char)
    (hs : s.toList = A ++ tfenceChars ++ B ++ tfenceChars ++ C)
    (hnj : pyContainsChars jfenceChars s.toList = false)
    (hA : ∀ c ∈ A, c ≠ btick) (hB : ∀ c ∈ B, c ≠ btick) :
    extractCandidate s = (pystrip B).asString := by
  have hct : pyContainsChars tfenceChars s.toList = true := by
    rw [hs]
    have := pyContains_decomp tfenceChars A (B ++ tfenceChars ++ C)
    simpa [List.append_assoc] using this
  have hsplit : pysplitL tfenceChars s.toList =
      A :: pysplitList btick ("``".toList) (B ++ tfenceChars ++ C) := by
    rw [pysplitL_tfence, hs,
        show A ++ tfenceChars ++ B ++ tfenceChars ++ C =
          A ++ (tfenceChars ++ (B ++ tfenceChars ++ C)) from by simp [List.append_assoc],
        pysplitList_free_append _ _ _ _ hA,
        show tfenceChars ++ (B ++ tfenceChars ++ C) =
          (btick :: "``".toList) ++ (B ++ tfenceChars ++ C) from by rw [tfence_cons_eq],
        pysplitList_sep_prefix]
    simp [List.modifyHead]
  have hinner : (pysplitList btick ("``".toList) (B ++ tfenceChars ++ C)).getD 0 [] = B := by
    rw [show B ++ tfenceChars ++ C = B ++ (tfenceChars ++ C) from by simp [List.append_assoc],
        pysplitList_free_append _ _ _ _ hB,
        show tfenceChars ++ C = (btick :: "``".toList) ++ C from by rw [tfence_cons_eq],
        pysplitList_sep_prefix]
    simp [List.modifyHead]
  simp only [extractCandidate, hnj, hct, if_true, Bool.false_eq_true, if_false]
  rw [hsplit, List.getD_cons_succ, hinner]
  have := tsplit_head B [] hB (Or.inl rfl)
  rw [List.append_nil] at this
  rw [this]

/-- Branch (3): no fence at all — the candidate is the whole text,
unstripped. -/
theorem extract_branch3 (s : String)
    (hnt : pyContainsChars tfenceChars s.toList = false) :
    extractCandidate s = s := by
  have hnj : pyContainsChars jfenceChars s.toList = false := by
    cases h : pyContainsChars jfenceChars s.toList with
    | false => rfl
    | true =>
      have ht := pyContains_tfence_of_jfence _ h
      rw [ht] at hnt
      exact hnt
  have hnt' : pyContainsChars tfenceChars s.data = false := hnt
  have hnj' : pyContainsChars jfenceChars s.data = false := hnj
  simp [extractCandidate, hnt', hnj']

/-! ### First-occurrence characterisation of the split scan -/

theorem isPrefixOf_length_le (pat : List Char) :
    ∀ u : List Char, pat.isPrefixOf u = true → pat.length ≤ u.length := by
  induction pat with
  | nil => intro u _; simp
  | cons a as ih =>
    intro u h
    cases u with
    | nil => exact Bool.noConfusion h
    | cons b bs =>
      rw [isPrefixOf_cons_cons, Bool.and_eq_true] at h
      have := ih bs h.2
      simp only [List.length_cons]
      omega

theorem isPrefixOf_of_take (pat : List Char) :
    ∀ (u : List Char) (k : Nat), pat.isPrefixOf (u.take k) = true →
      pat.isPrefixOf u = true := by
  induction pat with
  | nil => intro u _ _; cases u <;> rfl
  | cons a as ih =>
    intro u k h
    cases u with
    | nil => rw [List.take_nil] at h; exact Bool.noConfusion h
    | cons b bs =>
      cases k with
      | zero => exact Bool.noConfusion h
      | succ kk =>
        rw [List.take_succ_cons] at h
        rw [isPrefixOf_cons_cons, Bool.and_eq_true] at h ⊢
        exact ⟨h.1, ih bs kk h.2⟩

theorem isPrefixOf_take (pat : List Char) :
    ∀ (u : List Char) (k : Nat), pat.isPrefixOf u = true → pat.length ≤ k →
      pat.isPrefixOf (u.take k) = true := by
  induction pat with
  | nil => intro u k _ _; cases u <;> cases k <;> rfl
  | cons a as ih =>
    intro u k h hk
    cases u with
    | nil => exact Bool.noConfusion h
    | cons b bs =>
      cases k with
      | zero => exact absurd hk (by simp)
      | succ kk =>
        rw [List.take_succ_cons]
        rw [isPrefixOf_cons_cons, Bool.and_eq_true] at h ⊢
        refine ⟨h.1, ih bs kk h.2 ?_⟩
        simp only [List.length_cons] at hk
        omega

theorem firstOccIdx_isPrefixOf (pat : List Char) :
    ∀ (l : List Char) (n : Nat), firstOccIdx pat l = some n →
      pat.isPrefixOf (l.drop n) = true := by
  intro l
  induction l with
  | nil =>
    intro n h
    rw [firstOccIdx] at h
    by_cases he : pat.isEmpty = true
    · rw [if_pos he] at h
      cases h
      cases pat with
      | nil => rfl
      | cons a as => exact Bool.noConfusion he
    · rw [if_neg he] at h
      exact Option.noConfusion h
  | cons c rest ih =>
    intro n h
    rw [firstOccIdx] at h
    by_cases hp : pat.isPrefixOf (c :: rest) = true
    · rw [if_pos hp] at h
      cases h
      exact hp
    · rw [if_neg hp] at h
      cases hfo : firstOccIdx pat rest with
      | none => rw [hfo] at h; exact Option.noConfusion h
      | some m =>
        rw [hfo, Option.map_some'] at h
        cases h
        rw [List.drop_succ_cons]
        exact ih m hfo

theorem firstOccIdx_min (pat : List Char) :
    ∀ (l : List Char) (n : Nat), firstOccIdx pat l = some n →
      ∀ m, m < n → pat.isPrefixOf (l.drop m) = false := by
  intro l
  induction l with
  | nil =>
    intro n h m hm
    rw [firstOccIdx] at h
    by_cases he : pat.isEmpty = true
    · rw [if_pos he] at h
      cases h
      exact absurd hm (by omega)
    · rw [if_neg he] at h
      exact Option.noConfusion h
  | cons c rest ih =>
    intro n h m hm
    rw [firstOccIdx] at h
    by_cases hp : pat.isPrefixOf (c :: rest) = true
    · rw [if_pos hp] at h
      cases h
      exact absurd hm (by omega)
    · rw [if_neg hp] at h
      cases hfo : firstOccIdx pat rest with
      | none => rw [hfo] at h; exact Option.noConfusion h
      | some k =>
        rw [hfo, Option.map_some'] at h
        cases h
        cases m with
        | zero =>
          rw [List.drop_zero]
          rw [Bool.not_eq_true] at hp
          exact hp
        | succ mm =>
          rw [List.drop_succ_cons]
          exact ih k hfo mm (by omega)

theorem firstOccIdx_none_isPrefixOf (pat : List Char) :
    ∀ l : List Char, firstOccIdx pat l = none →
      ∀ m, pat.isPrefixOf (l.drop m) = false := by
  intro l
  induction l with
  | nil =>
    intro h m
    rw [firstOccIdx] at h
    by_cases he : pat.isEmpty = true
    · rw [if_pos he] at h
      exact Option.noConfusion h
    · cases pat with
      | nil => exact absurd rfl he
      | cons a as => rw [List.drop_nil]; rfl
  | cons c rest ih =>
    intro h m
    rw [firstOccIdx] at h
    by_cases hp : pat.isPrefixOf (c :: rest) = true
    · rw [if_pos hp] at h
      exact Option.noConfusion h
    · rw [if_neg hp] at h
      cases hfo : firstOccIdx pat rest with
      | some k => rw [hfo, Option.map_some'] at h; exact Option.noConfusion h
      | none =>
        cases m with
        | zero =>
          rw [List.drop_zero]
          rw [Bool.not_eq_true] at hp
          exact hp
        | succ mm =>
          rw [List.drop_succ_cons]
          exact ih hfo mm

theorem firstOccIdx_intro (pat : List Char) :
    ∀ (l : List Char) (j : Nat), pat.isPrefixOf (l.drop j) = true →
      (∀ m, m < j → pat.isPrefixOf (l.drop m) = false) →
      firstOccIdx pat l = some j := by
  intro l
  induction l with
  | nil =>
    intro j hocc hmin
    have hpat : pat = [] := by
      cases pat with
      | nil => rfl
      | cons a as => rw [List.drop_nil] at hocc; exact Bool.noConfusion hocc
    subst hpat
    have hj : j = 0 := by
      by_contra hne
      exact Bool.noConfusion (hmin 0 (by omega))
    subst hj
    rfl
  | cons c rest ih =>
    intro j hocc hmin
    cases j with
    | zero =>
      rw [firstOccIdx,
        if_pos (show pat.isPrefixOf (c :: rest) = true from hocc)]
    | succ jj =>
      have h0 : pat.isPrefixOf (c :: rest) = false := hmin 0 (Nat.succ_pos jj)
      rw [firstOccIdx, if_neg (by rw [h0]; exact Bool.false_ne_true)]
      have hocc2 : pat.isPrefixOf (rest.drop jj) = true := by
        have hx := hocc
        rw [List.drop_succ_cons] at hx
        exact hx
      have hmin2 : ∀ m, m < jj → pat.isPrefixOf (rest.drop m) = false := by
        intro m hm
        have hx := hmin (m + 1) (by omega)
        rw [List.drop_succ_cons] at hx
        exact hx
      rw [ih jj hocc2 hmin2]
      rfl

theorem pyContains_of_firstOccIdx (pat : List Char) :
    ∀ (l : List Char) (n : Nat), firstOccIdx pat l = some n →
      pyContainsChars pat l = true := by
  intro l
  induction l with
  | nil =>
    intro n h
    rw [firstOccIdx] at h
    by_cases he : pat.isEmpty = true
    · exact he
    · rw [if_neg he] at h
      exact Option.noConfusion h
  | cons c rest ih =>
    intro n h
    rw [firstOccIdx] at h
    by_cases hp : pat.isPrefixOf (c :: rest) = true
    · show (pat.isPrefixOf (c :: rest) || pyContainsChars pat rest) = true
      rw [hp, Bool.true_or]
    · rw [if_neg hp] at h
      cases hfo : firstOccIdx pat rest with
      | none => rw [hfo] at h; exact Option.noConfusion h
      | some k =>
        show (pat.isPrefixOf (c :: rest) || pyContainsChars pat rest) = true
        rw [ih k hfo, Bool.or_true]

theorem pysplitList_no_occ (s0 : Char) (pr : List Char) :
    ∀ l : List Char, firstOccIdx (s0 :: pr) l = none → pysplitList s0 pr l = [l] := by
  intro l
  induction l with
  | nil => intro _; rfl
  | cons c rest ih =>
    intro h
    rw [firstOccIdx] at h
    by_cases hp : (s0 :: pr).isPrefixOf (c :: rest) = true
    · rw [if_pos hp] at h
      exact Option.noConfusion h
    · rw [if_neg hp] at h
      have hrest : firstOccIdx (s0 :: pr) rest = none := by
        cases hfo : firstOccIdx (s0 :: pr) rest with
        | none => rfl
        | some k => rw [hfo, Option.map_some'] at h; exact Option.noConfusion h
      show pysplitGo s0 pr (c :: rest) 0 = _
      rw [pysplitGo, if_neg hp]
      show (pysplitList s0 pr rest).modifyHead (fun p => c :: p) = _
      rw [ih hrest]
      rfl

theorem pysplitList_split_at (s0 : Char) (pr : List Char) :
    ∀ (l : List Char) (q : Nat), firstOccIdx (s0 :: pr) l = some q →
      pysplitList s0 pr l =
        l.take q :: pysplitList s0 pr (l.drop (q + (pr.length + 1))) := by
  intro l
  induction l with
  | nil =>
    intro q h
    rw [firstOccIdx] at h
    by_cases he : (s0 :: pr).isEmpty = true
    · exact Bool.noConfusion he
    · rw [if_neg he] at h
      exact Option.noConfusion h
  | cons c rest ih =>
    intro q h
    rw [firstOccIdx] at h
    by_cases hp : (s0 :: pr).isPrefixOf (c :: rest) = true
    · rw [if_pos hp] at h
      cases h
      show pysplitGo s0 pr (c :: rest) 0 = _
      rw [pysplitGo, if_pos hp, pysplitGo_skip]
      rw [Nat.zero_add, List.drop_succ_cons, List.take_zero]
      rfl
    · rw [if_neg hp] at h
      cases hfo : firstOccIdx (s0 :: pr) rest with
      | none => rw [hfo] at h; exact Option.noConfusion h
      | some k =>
        rw [hfo, Option.map_some'] at h
        cases h
        show pysplitGo s0 pr (c :: rest) 0 = _
        rw [pysplitGo, if_neg hp]
        show (pysplitList s0 pr rest).modifyHead (fun p => c :: p) = _
        rw [ih k hfo]
        rw [show k + 1 + (pr.length + 1) = k + (pr.length + 1) + 1 from by omega,
            List.drop_succ_cons, List.take_succ_cons]
        rfl

theorem pysplitList_head (s0 : Char) (pr l : List Char) :
    (pysplitList s0 pr l).getD 0 [] =
      l.take ((firstOccIdx (s0 :: pr) l).getD l.length) := by
  cases hfo : firstOccIdx (s0 :: pr) l with
  | none =>
    rw [pysplitList_no_occ s0 pr l hfo, Option.getD_none, List.take_length]
    rfl
  | some q =>
    rw [pysplitList_split_at s0 pr l q hfo, Option.getD_some]
    rfl

theorem firstOccIdx_take_none (pat l : List Char) (j : Nat)
    (hne : pat ≠ []) (h : firstOccIdx pat l = some j) :
    firstOccIdx pat (l.take j) = none := by
  cases hfo : firstOccIdx pat (l.take j) with
  | none => rfl
  | some m =>
    exfalso
    have hocc := firstOccIdx_isPrefixOf pat (l.take j) m hfo
    rw [List.drop_take] at hocc
    have hlen := isPrefixOf_length_le pat _ hocc
    have hocc2 := isPrefixOf_of_take pat (l.drop m) (j - m) hocc
    have hbound : pat.length ≤ j - m := le_trans hlen (List.length_take_le _ _)
    have hpos : 0 < pat.length := by
      cases pat with
      | nil => exact absurd rfl hne
      | cons a as => simp
    have hmj : m < j := by omega
    have hfalse := firstOccIdx_min pat l j h m hmj
    rw [hfalse] at hocc2
    exact Bool.noConfusion hocc2

theorem firstOccIdx_take_some (pat l : List Char) (j t : Nat)
    (h : firstOccIdx pat l = some j) (ht : j + pat.length ≤ t) :
    firstOccIdx pat (l.take t) = some j := by
  apply firstOccIdx_intro
  · rw [List.drop_take]
    exact isPrefixOf_take pat (l.drop j) (t - j)
      (firstOccIdx_isPrefixOf pat l j h) (by omega)
  · intro m hm
    cases hoc : pat.isPrefixOf ((l.take t).drop m) with
    | false => rfl
    | true =>
      exfalso
      rw [List.drop_take] at hoc
      have hocc2 := isPrefixOf_of_take pat (l.drop m) (t - m) hoc
      rw [firstOccIdx_min pat l j h m hm] at hocc2
      exact Bool.noConfusion hocc2

theorem pysplitL_jfence_split (l : List Char) (i : Nat)
    (hi : firstOccIdx jfenceChars l = some i) :
    pysplitL jfenceChars l = l.take i :: pysplitL jfenceChars (l.drop (i + 7)) := by
  rw [pysplitL_jfence, pysplitL_jfence]
  have hi2 : firstOccIdx (btick :: "``json".toList) l = some i := by
    rw [← jfence_cons_eq]; exact hi
  rw [pysplitList_split_at _ _ l i hi2]
  rw [show ("``json".toList).length + 1 = 7 from by decide]

theorem pysplitL_tfence_split (l : List Char) (i : Nat)
    (hi : firstOccIdx tfenceChars l = some i) :
    pysplitL tfenceChars l = l.take i :: pysplitL tfenceChars (l.drop (i + 3)) := by
  rw [pysplitL_tfence, pysplitL_tfence]
  have hi2 : firstOccIdx (btick :: "``".toList) l = some i := by
    rw [← tfence_cons_eq]; exact hi
  rw [pysplitList_split_at _ _ l i hi2]
  rw [show ("``".toList).length + 1 = 3 from by decide]

theorem pysplitL_head_jfence (l : List Char) :
    (pysplitL jfenceChars l).getD 0 [] =
      l.take ((firstOccIdx jfenceChars l).getD l.length) := by
  rw [pysplitL_jfence, pysplitList_head, ← jfence_cons_eq]

theorem pysplitL_head_tfence (l : List Char) :
    (pysplitL tfenceChars l).getD 0 [] =
      l.take ((firstOccIdx tfenceChars l).getD l.length) := by
  rw [pysplitL_tfence, pysplitList_head, ← tfence_cons_eq]

/-- Branch (1) of the extractor in full generality: the text has its first
` ```json ` tag at index `i`, the remainder after the tag has its first
` ``` ` fence at index `j`, and no ` ```json ` occurrence of that remainder
starts strictly inside the closing fence (the glue corner case
`q = j + 1` / `q = j + 2` of the counterexample).  The candidate is then
the stripped text between tag and fence, whatever the surrounding prose
and the fenced content contain. -/
theorem extract_b1_general (s : String) (i j : Nat)
    (hi : firstOccIdx jfenceChars s.toList = some i)
    (hj : firstOccIdx tfenceChars (s.toList.drop (i + 7)) = some j)
    (hglue : ∀ q, firstOccIdx jfenceChars (s.toList.drop (i + 7)) = some q →
      q = j ∨ j + 3 ≤ q) :
    extractCandidate s = (pystrip ((s.toList.drop (i + 7)).take j)).asString := by
  have hcj : pyContainsChars jfenceChars s.toList = true :=
    pyContains_of_firstOccIdx jfenceChars s.toList i hi
  have hcand :
      (pysplitL tfenceChars ((pysplitL jfenceChars s.toList).getD 1 [])).getD 0 [] =
        (s.toList.drop (i + 7)).take j := by
    rw [pysplitL_jfence_split s.toList i hi, List.getD_cons_succ,
        pysplitL_head_jfence]
    cases hq : firstOccIdx jfenceChars (s.toList.drop (i + 7)) with
    | none =>
      rw [Option.getD_none, List.take_length, pysplitL_head_tfence, hj,
          Option.getD_some]
    | some q =>
      rw [Option.getD_some]
      rcases hglue q hq with heq | hge
      · subst heq
        rw [pysplitL_head_tfence,
            firstOccIdx_take_none tfenceChars _ _ (by decide) hj,
            Option.getD_none, List.take_length]
      · rw [pysplitL_head_tfence,
            firstOccIdx_take_some tfenceChars _ j q hj (by
              rw [show tfenceChars.length = 3 from by decide]; omega),
            Option.getD_some, List.take_take,
            inf_eq_left.mpr (show j ≤ q from by omega)]
  simp only [extractCandidate, hcj, if_true]
  rw [hcand]

/-- Branch (2) of the extractor in full generality: no ` ```json ` tag
anywhere, the first ` ``` ` fence at index `i`, and the remainder after it
has its first ` ``` ` fence at index `j`.  The candidate is the stripped
content of that first fenced block. -/
theorem extract_b2_general (s : String) (i j : Nat)
    (hnj : pyContainsChars jfenceChars s.toList = false)
    (hi : firstOccIdx tfenceChars s.toList = some i)
    (hj : firstOccIdx tfenceChars (s.toList.drop (i + 3)) = some j) :
    extractCandidate s = (pystrip ((s.toList.drop (i + 3)).take j)).asString := by
  have hct : pyContainsChars tfenceChars s.toList = true :=
    pyContains_of_firstOccIdx tfenceChars s.toList i hi
  have hcand :
      (pysplitL tfenceChars ((pysplitL tfenceChars s.toList).getD 1 [])).getD 0 [] =
        (s.toList.drop (i + 3)).take j := by
    rw [pysplitL_tfence_split s.toList i hi, List.getD_cons_succ,
        pysplitL_head_tfence (s.toList.drop (i + 3)), hj, Option.getD_some,
        pysplitL_head_tfence,
        firstOccIdx_take_none tfenceChars _ _ (by decide) hj,
        Option.getD_none, List.take_length]
  simp only [extractCandidate, hnj, hct, if_true, Bool.false_eq_true, if_false]
  rw [hcand]

/-- Identification of the branch-(1) candidate with the spec-side
`specFencedContent`. -/
theorem specFencedContent_of_idx (s : String) (i j : Nat)
    (hi : firstOccIdx jfenceChars s.toList = some i)
    (hj : firstOccIdx tfenceChars (s.toList.drop (i + 7)) = some j) :
    specFencedContent s =
      some ((pystrip ((s.toList.drop (i + 7)).take j)).asString) := by
  have h7 : jfenceChars.length = 7 := by decide
  simp only [specFencedContent, hi, h7, hj]

/-! ### Lemmas about the retry loop -/

theorem validate_inputs_budget (raw : TripInputs) (inputs : ReqInputs)
    (h : validate_inputs raw = .ok inputs) :
    raw.budget = some inputs.budget ∧ 0 < inputs.budget := by
  unfold validate_inputs at h
  cases hi : raw.interests <;> rw [hi] at h <;>
    cases hb : raw.budget <;> rw [hb] at h <;>
      cases hd : raw.duration <;> rw [hd] at h <;>
        cases hsc : raw.start_city <;> rw [hsc] at h <;>
          cases hse : raw.season <;> rw [hse] at h <;>
            cases hp : raw.people <;> rw [hp] at h <;>
              simp only [] at h
  case some.some.some.some.some.some it b d sc se p =>
    split_ifs at h with h1 h2 h3
    all_goals try (cases h)
    refine ⟨?_, ?_⟩
    · simp [hb]
    · have hbpos : (0 : Int) < b := by omega
      simpa using hbpos
  all_goals exact Except.noConfusion h

theorem attemptCore_success_inv (pj rp : String → Option JValue)
    (env : Nat → Nat → StageOut) (k : Nat) (inputs : ReqInputs)
    (o : Int) (mr : Nat) (plan : FinalPlan) (hk : k < mr)
    (h : attemptCore pj rp env k inputs o mr = .ok (.success plan)) :
    plan.budget.within_budget.truthy = true ∧
    plan.budget.budget_limit = o ∧
    plan.metadata.attempts = k + 1 := by
  unfold attemptCore at h
  split at h
  · exact absurd h (by simp)
  next so hrs =>
    unfold attemptBranch at h
    split at h
    · exact absurd h (by simp)
    next hc1 =>
      split at h
      · exact absurd h (by simp)
      next hc2 =>
        split at h
        · exact absurd h (by simp)
        · exact absurd h (by simp)
        next sr recs hg =>
          cases h
          refine ⟨?_, rfl, rfl⟩
          cases hwv : so.within_budget.truthy with
          | true => rfl
          | false =>
            exfalso
            rw [hwv] at hc1 hc2
            simp at hc1 hc2
            omega

/-- Unfolding: a `retryShrink` attempt reruns the loop at `k + 1` with the
budget reset to `int(original_budget * 0.85)`. -/
theorem runLoop_eq_retryShrink (pj rp : String → Option JValue)
    (env : Nat → Nat → StageOut) (o : Int) (mr n k : Nat) (inputs : ReqInputs)
    (h : attemptCore pj rp env k inputs o mr = .ok .retryShrink) :
    runLoop pj rp env o mr (n + 1) k inputs =
      ((runLoop pj rp env o mr n (k + 1) { inputs with budget := shrunk_budget o }).1,
       inputs.budget ::
         (runLoop pj rp env o mr n (k + 1) { inputs with budget := shrunk_budget o }).2) := by
  rw [runLoop, h]

/-- Unfolding: a successful attempt returns its plan at once. -/
theorem runLoop_eq_success (pj rp : String → Option JValue)
    (env : Nat → Nat → StageOut) (o : Int) (mr n k : Nat) (inputs : ReqInputs)
    (p : FinalPlan) (h : attemptCore pj rp env k inputs o mr = .ok (.success p)) :
    runLoop pj rp env o mr (n + 1) k inputs = (.ok p, [inputs.budget]) := by
  rw [runLoop, h]

/-- Unfolding: an exception with attempts remaining reruns the loop at
`k + 1` with the same inputs — in particular the same working budget. -/
theorem runLoop_eq_error_retry (pj rp : String → Option JValue)
    (env : Nat → Nat → StageOut) (o : Int) (mr n k : Nat) (inputs : ReqInputs)
    (e : String) (h : attemptCore pj rp env k inputs o mr = .error e)
    (hlt : k < mr - 1) :
    runLoop pj rp env o mr (n + 1) k inputs =
      ((runLoop pj rp env o mr n (k + 1) inputs).1,
       inputs.budget :: (runLoop pj rp env o mr n (k + 1) inputs).2) := by
  rw [runLoop, h]
  show (if k < mr - 1 then
      ((runLoop pj rp env o mr n (k + 1) inputs).1,
       inputs.budget :: (runLoop pj rp env o mr n (k + 1) inputs).2)
    else ((.error e : Except String FinalPlan), [inputs.budget])) = _
  rw [if_pos hlt]

/-- Unfolding: an exception on the last attempt is re-raised. -/
theorem runLoop_eq_error_last (pj rp : String → Option JValue)
    (env : Nat → Nat → StageOut) (o : Int) (mr n k : Nat) (inputs : ReqInputs)
    (e : String) (h : attemptCore pj rp env k inputs o mr = .error e)
    (hlt : ¬ k < mr - 1) :
    runLoop pj rp env o mr (n + 1) k inputs = (.error e, [inputs.budget]) := by
  rw [runLoop, h]
  show (if k < mr - 1 then
      ((runLoop pj rp env o mr n (k + 1) inputs).1,
       inputs.budget :: (runLoop pj rp env o mr n (k + 1) inputs).2)
    else ((.error e : Except String FinalPlan), [inputs.budget])) = _
  rw [if_neg hlt]

theorem runLoop_ok_inv (pj rp : String → Option JValue) (env : Nat → Nat → StageOut)
    (o : Int) (mr : Nat) :
    ∀ (fuel k : Nat) (inputs : ReqInputs) (plan : FinalPlan) (tr : List Int),
      k + fuel = mr →
      runLoop pj rp env o mr fuel k inputs = (.ok plan, tr) →
      plan.budget.within_budget.truthy = true ∧
      plan.budget.budget_limit = o ∧
      plan.metadata.attempts = k + tr.length := by
  intro fuel
  induction fuel with
  | zero =>
    intro k inputs plan tr hk h
    exact absurd h (by simp [runLoop])
  | succ n ih =>
    intro k inputs plan tr hk h
    cases hac : attemptCore pj rp env k inputs o mr with
    | ok bo =>
      cases bo with
      | retryShrink =>
        rw [runLoop_eq_retryShrink pj rp env o mr n k inputs hac] at h
        simp only [Prod.mk.injEq] at h
        obtain ⟨h1, h2⟩ := h
        have hrec := ih (k + 1) { inputs with budget := shrunk_budget o } plan
          (runLoop pj rp env o mr n (k + 1) { inputs with budget := shrunk_budget o }).2
          (by omega) (by rw [← h1])
        refine ⟨hrec.1, hrec.2.1, ?_⟩
        rw [← h2]
        simp only [List.length_cons]
        omega
      | success p =>
        rw [runLoop_eq_success pj rp env o mr n k inputs p hac] at h
        simp only [Prod.mk.injEq] at h
        obtain ⟨h1, h2⟩ := h
        cases h1
        have := attemptCore_success_inv pj rp env k inputs o mr plan (by omega) hac
        refine ⟨this.1, this.2.1, ?_⟩
        rw [← h2, this.2.2]
        simp
    | error e =>
      by_cases hlt : k < mr - 1
      · rw [runLoop_eq_error_retry pj rp env o mr n k inputs e hac hlt] at h
        simp only [Prod.mk.injEq] at h
        obtain ⟨h1, h2⟩ := h
        have hrec := ih (k + 1) inputs plan
          (runLoop pj rp env o mr n (k + 1) inputs).2 (by omega) (by rw [← h1])
        refine ⟨hrec.1, hrec.2.1, ?_⟩
        rw [← h2]
        simp only [List.length_cons]
        omega
      · rw [runLoop_eq_error_last pj rp env o mr n k inputs e hac hlt] at h
        exact absurd h (by simp)

set_option maxRecDepth 4000 in
theorem runLoop_trace_shape (pj rp : String → Option JValue) (env : Nat → Nat → StageOut)
    (o : Int) (mr : Nat) :
    ∀ (fuel k : Nat) (inputs : ReqInputs),
      ∃ m n : Nat,
        (runLoop pj rp env o mr fuel k inputs).2 =
          List.replicate m inputs.budget ++ List.replicate n (shrunk_budget o) ∧
        ((runLoop pj rp env o mr fuel k inputs).2 = [] ∨ 0 < m) := by
  intro fuel
  induction fuel with
  | zero =>
    intro k inputs
    exact ⟨0, 0, rfl, Or.inl rfl⟩
  | succ n ih =>
    intro k inputs
    cases hac : attemptCore pj rp env k inputs o mr with
    | error e =>
      by_cases hlt : k < mr - 1
      · obtain ⟨m', n', hsh, _⟩ := ih (k + 1) inputs
        refine ⟨m' + 1, n', ?_, Or.inr (by omega)⟩
        rw [runLoop_eq_error_retry pj rp env o mr n k inputs e hac hlt]
        show inputs.budget :: (runLoop pj rp env o mr n (k + 1) inputs).2 = _
        rw [hsh]
        rfl
      · refine ⟨1, 0, ?_, Or.inr (by omega)⟩
        rw [runLoop_eq_error_last pj rp env o mr n k inputs e hac hlt]
        rfl
    | ok bo =>
      cases bo with
      | retryShrink =>
        obtain ⟨m', n', hsh, _⟩ := ih (k + 1) { inputs with budget := shrunk_budget o }
        refine ⟨1, m' + n', ?_, Or.inr (by omega)⟩
        rw [runLoop_eq_retryShrink pj rp env o mr n k inputs hac]
        show inputs.budget ::
          (runLoop pj rp env o mr n (k + 1) { inputs with budget := shrunk_budget o }).2 = _
        rw [hsh]
        show inputs.budget ::
          (List.replicate m' (shrunk_budget o) ++ List.replicate n' (shrunk_budget o)) = _
        rw [← List.replicate_add]
        rfl
      | success p =>
        refine ⟨1, 0, ?_, Or.inr (by omega)⟩
        rw [runLoop_eq_success pj rp env o mr n k inputs p hac]
        rfl

/-! ### Well-typed plan excerpts for the auditor -/

/-- A budget line item `{'cost': c}`. -/
def costItem (c : Int) : JValue := .obj [("cost", .num c)]

/-- The `budget_data` dict with optional `accommodation` and `meals`
entries, each a list of cost items. -/
def mkBudgetData (acc meals : Option (List Int)) : JValue :=
  .obj ((match acc with
         | some l => [("accommodation", JValue.arr (l.map costItem))]
         | none => []) ++
        (match meals with
         | some l => [("meals", JValue.arr (l.map costItem))]
         | none => []))

/-- The plan excerpt `run` hands to the auditor,
`{'budget': {'plan': budget_data, 'total_cost': total}}`, built from
well-typed data. -/
def mkAuditPlan (acc meals : Option (List Int)) (total : Int) : JValue :=
  .obj [("budget", .obj [("plan", mkBudgetData acc meals), ("total_cost", .num total)])]

theorem sumCosts_go (l : List Int) :
    ∀ a : Int,
      (l.map costItem).foldl
        (fun acc item =>
          match acc, item with
          | some a, .obj fields =>
            match jget fields "cost" with
            | none => some a
            | some v =>
              match v.asNum with
              | some n => some (a + n)
              | none => none
          | _, _ => none)
        (some a) = some (a + l.sum) := by
  induction l with
  | nil => intro a; simp
  | cons c cs ih =>
    intro a
    simp only [List.map_cons, List.foldl_cons]
    have step :
        (match some a, costItem c with
          | some a, JValue.obj fields =>
            match jget fields "cost" with
            | none => some a
            | some v =>
              match v.asNum with
              | some n => some (a + n)
              | none => none
          | _, _ => none) = some (a + c) := rfl
    rw [step, ih (a + c)]
    congr 1
    simp [List.sum_cons]
    ring

theorem sumCosts_map_costItem (l : List Int) :
    sumCosts (l.map costItem) = some l.sum := by
  have := sumCosts_go l 0
  simpa [sumCosts] using this

/-! ### Unfolding helpers for `attemptCore` and `runT` -/

theorem attemptCore_of_stages_ok (pj rp : String → Option JValue)
    (env : Nat → Nat → StageOut) (k : Nat) (inputs : ReqInputs) (o : Int) (mr : Nat)
    (so : StagesOut) (hrs : runStages pj rp env k inputs = .ok so) :
    attemptCore pj rp env k inputs o mr = attemptBranch k inputs o mr so := by
  unfold attemptCore
  rw [hrs]

theorem attemptBranch_over_budget_last (k : Nat) (inputs : ReqInputs) (o : Int)
    (mr : Nat) (so : StagesOut) (hw : so.within_budget.truthy = false)
    (hk : k = mr - 1) :
    attemptBranch k inputs o mr so =
      .error (budget_fail_msg o inputs.currency mr so.computed_total) := by
  unfold attemptBranch
  rw [hw]
  simp only [Bool.not_false, Bool.true_and]
  rw [if_neg (by simp [hk]), if_pos (by simp [hk])]

theorem validate_inputs_all_some (it : String) (b d : Int) (sc se : String)
    (p : Int) (cur : Option String) (hb : 0 < b) (hd : 0 < d) (hp : 0 < p) :
    validate_inputs ⟨some it, some b, some d, some sc, some se, some p, cur⟩ =
      .ok ⟨it, b, d, sc, se, p, cur.getD "INR"⟩ := by
  unfold validate_inputs
  show (if b ≤ 0 then (Except.error "Budget must be greater than 0" : Except String ReqInputs)
        else if d ≤ 0 then Except.error "Duration must be at least 1 day"
        else if p ≤ 0 then Except.error "Number of people must be at least 1"
        else Except.ok ⟨it, b, d, sc, se, p, cur.getD "INR"⟩) = _
  rw [if_neg (by omega), if_neg (by omega), if_neg (by omega)]

theorem runT_eq_of_invalid (pj rp : String → Option JValue) (env : Nat → Nat → StageOut)
    (raw : TripInputs) (mr : Nat) (e : String)
    (hv : validate_inputs raw = .error e) :
    runT pj rp env raw mr = (.error e, []) := by
  unfold runT
  rw [hv]

theorem runT_eq_of_valid (pj rp : String → Option JValue) (env : Nat → Nat → StageOut)
    (raw : TripInputs) (mr : Nat) (inputs : ReqInputs)
    (hv : validate_inputs raw = .ok inputs)
    (hf : (validate_feasibility inputs.budget inputs.people inputs.duration).feasible = true) :
    runT pj rp env raw mr = runLoop pj rp env inputs.budget mr mr 0 inputs := by
  unfold runT
  rw [hv]
  show (let feas := validate_feasibility inputs.budget inputs.people inputs.duration
        if feas.feasible then runLoop pj rp env inputs.budget mr mr 0 inputs
        else (.error (feas.message.getD ""), [])) = _
  simp only [hf, if_true]

theorem runT_eq_of_infeasible (pj rp : String → Option JValue) (env : Nat → Nat → StageOut)
    (raw : TripInputs) (mr : Nat) (inputs : ReqInputs) (msg : String)
    (hv : validate_inputs raw = .ok inputs)
    (hf : validate_feasibility inputs.budget inputs.people inputs.duration =
      { feasible := false, message := some msg }) :
    runT pj rp env raw mr = (.error msg, []) := by
  unfold runT
  rw [hv]
  show (let feas := validate_feasibility inputs.budget inputs.people inputs.duration
        if feas.feasible then runLoop pj rp env inputs.budget mr mr 0 inputs
        else (.error (feas.message.getD ""), [])) = _
  simp [hf]

theorem validate_feasibility_false (b p d : Int)
    (h : (validate_feasibility b p d).feasible = false) :
    validate_feasibility b p d =
      { feasible := false, message := some (infeasible_message b p d) } := by
  unfold validate_feasibility at h ⊢
  by_cases hc : b < p * d * 1500
  · rw [if_pos hc]
  · rw [if_neg hc] at h
    exact absurd h (by simp)

/-! ### Concrete fixtures used by the witnesses -/

/-- Toy `json.loads`: parses exactly the two budget-check stage outputs the
witness environments emit, plus the small JSON bodies used in the extractor
witnesses. -/
def pjW : String → Option JValue := fun t =>
  if t = "BF" then some (.obj [("within_budget", .bool false)])
  else if t = "BT" then some (.obj [("within_budget", .bool true), ("computed_total", .num 2000)])
  else if t = "42" then some (.num 42)
  else none

/-- Toy repair pass that never recovers anything. -/
def rpW : String → Option JValue := fun _ => none

def reqW : ReqInputs := ⟨"culture", 20000, 1, "Mumbai", "winter", 1, "INR"⟩

def rawW : TripInputs :=
  ⟨some "culture", some 20000, some 1, some "Mumbai", some "winter", some 1, some "INR"⟩

def rawC1 : TripInputs :=
  ⟨some "food", some 10000, some 1, some "Pune", some "winter", some 1, some "INR"⟩

/-- Oracle: every attempt succeeds and the budget check reports within
budget. -/
def envOkW : Nat → Nat → StageOut := fun _ i => .text (if i == 5 then "BT" else "X")

/-- Oracle: every attempt completes but the budget check reports over
budget. -/
def envOverW : Nat → Nat → StageOut := fun _ i => .text (if i == 5 then "BF" else "X")

/-- Oracle: every kickoff raises. -/
def envBoomW : Nat → Nat → StageOut := fun _ _ => .exn "boom"

def rawXObj : JValue := .obj [("raw_output", .str "X")]

def bvTrueObj : JValue := .obj [("within_budget", .bool true), ("computed_total", .num 2000)]

/-- The stage record of one `envOverW` attempt against `reqW`. -/
def soW : StagesOut :=
  ⟨rawXObj, .str "Unknown", rawXObj, rawXObj, rawXObj, rawXObj,
   .obj [("within_budget", .bool false)], .bool false, .num 0,
   ⟨false, [total_issue 0 1000]⟩⟩

/-- The plan `envOkW` produces from `rawW` on the first attempt. -/
def planW : FinalPlan :=
  ⟨⟨1, 1, "INR", "Mumbai", 1⟩, .str "Unknown", .str "", rawXObj, rawXObj, rawXObj,
   ⟨rawXObj, bvTrueObj, .num 2000, .bool true, 20000, true, []⟩, .arr []⟩

/-! ### The claims -/

/-- C5: for every raw model output whose selected candidate (fenced or
whole-text) neither the plain JSON parse nor the repair pass can parse,
`_parse_result` returns `{"raw_output": <original text>}`; the embedding of
`_parse_result` is a total function, so it never raises. -/
theorem c5_extractor_fallback (pj rp : String → Option JValue) (s : String)
    (hpj : pj (extractCandidate s) = none) (hrp : rp (extractCandidate s) = none) :
    parseResult pj rp s = .obj [("raw_output", .str s)] := by
  unfold parseResult
  simp only [hpj, hrp]

theorem c5_extractor_fallback_witness :
    ((fun _ : String => (none : Option JValue)) (extractCandidate "not json") = none) ∧
    parseResult (fun _ => none) (fun _ => none) "not json" =
      .obj [("raw_output", .str "not json")] :=
  ⟨rfl, c5_extractor_fallback (fun _ => none) (fun _ => none) "not json" rfl rfl⟩

/-- C10: the realism auditor never reads the request's budget — two
requests agreeing on `people` and `duration` (the only request fields the
auditor uses) get identical results on every plan excerpt, so shrinking
the budget between attempts cannot change the audit outcome. -/
theorem c10_audit_budget_independent (plan : JValue) (r1 r2 : ReqInputs)
    (hp : r1.people = r2.people) (hd : r1.duration = r2.duration) :
    validate_budget_realistic plan r1 = validate_budget_realistic plan r2 := by
  unfold validate_budget_realistic
  rw [hp, hd]

def reqLoBudget : ReqInputs := ⟨"food", 1000, 2, "Delhi", "summer", 3, "INR"⟩

def reqHiBudget : ReqInputs := ⟨"food", 99999, 2, "Delhi", "summer", 3, "INR"⟩

theorem c10_audit_budget_independent_witness :
    reqLoBudget.people = reqHiBudget.people ∧
    reqLoBudget.duration = reqHiBudget.duration ∧
    ¬ reqLoBudget.budget = reqHiBudget.budget ∧
    validate_budget_realistic (mkAuditPlan (some [100]) (some [50]) 700) reqLoBudget =
      validate_budget_realistic (mkAuditPlan (some [100]) (some [50]) 700) reqHiBudget :=
  ⟨rfl, rfl, by decide,
   c10_audit_budget_independent (mkAuditPlan (some [100]) (some [50]) 700)
     reqLoBudget reqHiBudget rfl rfl⟩

/-- C3: a budget below `people * duration * 1500` makes `check_feasibility`
return `feasible=false` with the message citing that computed minimum, and
`run` raises that message with an empty attempt trace — for every oracle
`env`, i.e. before any stage executes and independent of any model call;
any budget at or above the floor is feasible (the `> people * duration *
50000` ceiling only guards a warning print, `high_budget_warning`, and
never blocks). -/
theorem c3_feasibility_gate :
    (∀ b p d : Int, b < p * d * 1500 →
       validate_feasibility b p d =
         { feasible := false, message := some (infeasible_message b p d) }) ∧
    (∀ (pj rp : String → Option JValue) (env : Nat → Nat → StageOut)
       (it sc se : String) (cur : Option String) (mr : Nat) (b p d : Int),
       0 < b → 0 < p → 0 < d → b < p * d * 1500 →
       runT pj rp env ⟨some it, some b, some d, some sc, some se, some p, cur⟩ mr =
         (.error (infeasible_message b p d), [])) ∧
    (∀ b p d : Int, p * d * 1500 ≤ b →
       validate_feasibility b p d = { feasible := true, message := none }) := by
  refine ⟨?_, ?_, ?_⟩
  · intro b p d h
    unfold validate_feasibility
    rw [if_pos h]
  · intro pj rp env it sc se cur mr b p d hb hp hd hlt
    have hv := validate_inputs_all_some it b d sc se p cur hb hd hp
    refine runT_eq_of_infeasible pj rp env _ mr _ _ hv ?_
    show validate_feasibility b p d = _
    unfold validate_feasibility
    rw [if_pos hlt]
  · intro b p d h
    unfold validate_feasibility
    rw [if_neg (not_lt.mpr h)]

theorem c3_feasibility_gate_witness :
    ((500 : Int) < 2 * 4 * 1500 ∧
     validate_feasibility 500 2 4 =
       { feasible := false, message := some (infeasible_message 500 2 4) }) ∧
    runT pjW rpW envOkW
        ⟨some "luxury", some 500, some 4, some "Chennai", some "winter", some 2, some "INR"⟩ 2 =
      (.error (infeasible_message 500 2 4), []) ∧
    ((2 * 5 * 1500 : Int) ≤ 50000 ∧
     validate_feasibility 50000 2 5 = { feasible := true, message := none }) ∧
    (high_budget_warning 1000000000 1 1 = true ∧
     validate_feasibility 1000000000 1 1 = { feasible := true, message := none }) :=
  ⟨⟨by decide, c3_feasibility_gate.1 500 2 4 (by decide)⟩,
   c3_feasibility_gate.2.1 pjW rpW envOkW "luxury" "Chennai" "winter" (some "INR") 2
     500 2 4 (by decide) (by decide) (by decide) (by decide),
   ⟨by decide, c3_feasibility_gate.2.2 50000 2 5 (by decide)⟩,
   ⟨by decide, c3_feasibility_gate.2.2 1000000000 1 1 (by decide)⟩⟩

/-- C8: an invalid season is rejected by the API-layer validator
`validate_season` with its message verbatim, before the workflow — hence
before any model call (the result holds for every oracle, with an empty
attempt trace) and with no retry (independent of `max_retries`); and any
`validate_inputs` error (missing field, non-positive budget/duration/
people) likewise aborts `run` verbatim with an empty attempt trace. -/
theorem c8_input_validation_fail_fast :
    (∀ s : String, valid_seasons.contains (pyLower s) = false →
       validate_season s = .error season_err_msg) ∧
    (∀ (pj rp : String → Option JValue) (env : Nat → Nat → StageOut)
       (it : String) (b d : Int) (sc se : String) (p : Int) (cur : Option String)
       (mr : Nat),
       valid_seasons.contains (pyLower se) = false →
       create_plan_sync_request pj rp env it b d sc se p cur mr =
         (.error season_err_msg, [])) ∧
    (∀ (pj rp : String → Option JValue) (env : Nat → Nat → StageOut)
       (raw : TripInputs) (mr : Nat) (e : String),
       validate_inputs raw = .error e →
       runT pj rp env raw mr = (.error e, [])) := by
  have h1 : ∀ s : String, valid_seasons.contains (pyLower s) = false →
      validate_season s = .error season_err_msg := by
    intro s h
    unfold validate_season
    rw [h]
    rfl
  refine ⟨h1, ?_, ?_⟩
  · intro pj rp env it b d sc se p cur mr h
    unfold create_plan_sync_request
    rw [h1 se h]
  · intro pj rp env raw mr e hv
    exact runT_eq_of_invalid pj rp env raw mr e hv

theorem c8_input_validation_fail_fast_witness :
    (valid_seasons.contains (pyLower "rainy") = false ∧
     validate_season "rainy" = .error season_err_msg) ∧
    create_plan_sync_request pjW rpW envOkW "culture" 20000 1 "Mumbai" "rainy" 1
        (some "INR") 2 = (.error season_err_msg, []) ∧
    (validate_inputs ⟨none, some 20000, some 1, some "Mumbai", some "winter", some 1,
        some "INR"⟩ = .error "Missing required fields: interests" ∧
     runT pjW rpW envOkW ⟨none, some 20000, some 1, some "Mumbai", some "winter",
        some 1, some "INR"⟩ 2 = (.error "Missing required fields: interests", [])) ∧
    (validate_inputs ⟨some "culture", some 0, some 1, some "Mumbai", some "winter",
        some 1, some "INR"⟩ = .error "Budget must be greater than 0" ∧
     runT pjW rpW envOkW ⟨some "culture", some 0, some 1, some "Mumbai", some "winter",
        some 1, some "INR"⟩ 2 = (.error "Budget must be greater than 0", [])) :=
  ⟨⟨rfl, c8_input_validation_fail_fast.1 "rainy" rfl⟩,
   c8_input_validation_fail_fast.2.1 pjW rpW envOkW "culture" 20000 1 "Mumbai" "rainy" 1
     (some "INR") 2 rfl,
   ⟨rfl, c8_input_validation_fail_fast.2.2 pjW rpW envOkW _ 2 _ rfl⟩,
   ⟨rfl, c8_input_validation_fail_fast.2.2 pjW rpW envOkW _ 2 _ rfl⟩⟩

/-- C7: an exception during an attempt (after pre-flight validation) is
caught by the loop: with attempts remaining the whole sequence reruns at
the next index with the very same inputs — the same working budget, not
further shrunk; on the last attempt the loop returns exactly the caught
exception. -/
theorem c7_exception_retry (pj rp : String → Option JValue)
    (env : Nat → Nat → StageOut) (o : Int) (mr n k : Nat) (inputs : ReqInputs)
    (e : String) (h : attemptCore pj rp env k inputs o mr = .error e) :
    (k < mr - 1 →
      runLoop pj rp env o mr (n + 1) k inputs =
        ((runLoop pj rp env o mr n (k + 1) inputs).1,
         inputs.budget :: (runLoop pj rp env o mr n (k + 1) inputs).2)) ∧
    (¬ k < mr - 1 →
      runLoop pj rp env o mr (n + 1) k inputs = (.error e, [inputs.budget])) :=
  ⟨fun hlt => runLoop_eq_error_retry pj rp env o mr n k inputs e h hlt,
   fun hge => runLoop_eq_error_last pj rp env o mr n k inputs e h hge⟩

theorem c7_exception_retry_witness :
    attemptCore pjW rpW envBoomW 0 reqW 20000 2 = .error "boom" ∧
    (0 : Nat) < 2 - 1 ∧
    runLoop pjW rpW envBoomW 20000 2 2 0 reqW =
      ((runLoop pjW rpW envBoomW 20000 2 1 1 reqW).1,
       (20000 : Int) :: (runLoop pjW rpW envBoomW 20000 2 1 1 reqW).2) ∧
    attemptCore pjW rpW envBoomW 1 reqW 20000 2 = .error "boom" ∧
    runLoop pjW rpW envBoomW 20000 2 1 1 reqW = (.error "boom", [20000]) :=
  ⟨rfl, by decide,
   (c7_exception_retry pjW rpW envBoomW 20000 2 1 0 reqW "boom" rfl).1 (by decide),
   rfl,
   (c7_exception_retry pjW rpW envBoomW 20000 2 0 1 reqW "boom" rfl).2 (by decide)⟩

/-- C2: if the budget-check stage of the last attempt reports a falsy
`within_budget` (a missing key defaults to `False` inside `runStages`),
the loop returns the `ValueError` message built by `budget_fail_msg` —
citing the original, unshrunk budget `o` and the last computed total — and
`run` never returns a plan whose `within_budget` is falsy. -/
theorem c2_last_attempt_over_budget :
    (∀ (pj rp : String → Option JValue) (env : Nat → Nat → StageOut) (o : Int)
       (mr : Nat) (inputs : ReqInputs) (so : StagesOut),
       runStages pj rp env (mr - 1) inputs = .ok so →
       so.within_budget.truthy = false →
       runLoop pj rp env o mr 1 (mr - 1) inputs =
         (.error (budget_fail_msg o inputs.currency mr so.computed_total),
          [inputs.budget])) ∧
    (∀ (pj rp : String → Option JValue) (env : Nat → Nat → StageOut)
       (raw : TripInputs) (mr : Nat) (plan : FinalPlan),
       (runT pj rp env raw mr).1 = .ok plan →
       plan.budget.within_budget.truthy = true) := by
  constructor
  · intro pj rp env o mr inputs so hrs hw
    have hac : attemptCore pj rp env (mr - 1) inputs o mr =
        .error (budget_fail_msg o inputs.currency mr so.computed_total) := by
      rw [attemptCore_of_stages_ok pj rp env (mr - 1) inputs o mr so hrs,
          attemptBranch_over_budget_last (mr - 1) inputs o mr so hw rfl]
    exact runLoop_eq_error_last pj rp env o mr 0 (mr - 1) inputs _ hac (by omega)
  · intro pj rp env raw mr plan h
    cases hv : validate_inputs raw with
    | error e =>
      rw [runT_eq_of_invalid pj rp env raw mr e hv] at h
      exact absurd h (by simp)
    | ok inputs =>
      cases hf : (validate_feasibility inputs.budget inputs.people inputs.duration).feasible with
      | false =>
        rw [runT_eq_of_infeasible pj rp env raw mr inputs _ hv
          (validate_feasibility_false _ _ _ hf)] at h
        exact absurd h (by simp)
      | true =>
        rw [runT_eq_of_valid pj rp env raw mr inputs hv hf] at h
        exact (runLoop_ok_inv pj rp env inputs.budget mr mr 0 inputs plan
          (runLoop pj rp env inputs.budget mr mr 0 inputs).2 (by omega)
          (by rw [← h])).1

theorem c2_last_attempt_over_budget_witness :
    runStages pjW rpW envOverW 0 reqW = .ok soW ∧
    soW.within_budget.truthy = false ∧
    runLoop pjW rpW envOverW 20000 1 1 0 reqW =
      (.error (budget_fail_msg 20000 "INR" 1 (JValue.num 0)), [20000]) :=
  ⟨rfl, rfl,
   c2_last_attempt_over_budget.1 pjW rpW envOverW 20000 1 reqW soW rfl rfl⟩

/-- C9: every plan `run` returns (instead of raising) carries a truthy
`within_budget`, a `budget_limit` equal to the caller's original budget
(not the shrunk working budget), and `metadata.attempts` equal to the
1-based index of the succeeding attempt — the number of attempts executed,
i.e. the length of the budget trace. -/
theorem c9_final_plan_invariants (pj rp : String → Option JValue)
    (env : Nat → Nat → StageOut) (raw : TripInputs) (mr : Nat)
    (plan : FinalPlan) (b0 : Int) (hb : raw.budget = some b0)
    (h : (runT pj rp env raw mr).1 = .ok plan) :
    plan.budget.within_budget.truthy = true ∧
    plan.budget.budget_limit = b0 ∧
    plan.metadata.attempts = (runT pj rp env raw mr).2.length := by
  cases hv : validate_inputs raw with
  | error e =>
    rw [runT_eq_of_invalid pj rp env raw mr e hv] at h
    exact absurd h (by simp)
  | ok inputs =>
    have hbb := validate_inputs_budget raw inputs hv
    have hb0 : inputs.budget = b0 := by
      rw [hbb.1] at hb
      exact Option.some.inj hb
    cases hf : (validate_feasibility inputs.budget inputs.people inputs.duration).feasible with
    | false =>
      rw [runT_eq_of_infeasible pj rp env raw mr inputs _ hv
        (validate_feasibility_false _ _ _ hf)] at h
      exact absurd h (by simp)
    | true =>
      have hrt := runT_eq_of_valid pj rp env raw mr inputs hv hf
      rw [hrt] at h
      rw [hrt]
      have hinv := runLoop_ok_inv pj rp env inputs.budget mr mr 0 inputs plan
        (runLoop pj rp env inputs.budget mr mr 0 inputs).2 (by omega) (by rw [← h])
      refine ⟨hinv.1, hb0 ▸ hinv.2.1, ?_⟩
      rw [hinv.2.2]
      simp

theorem c9_final_plan_invariants_witness :
    rawW.budget = some 20000 ∧
    (runT pjW rpW envOkW rawW 2).1 = .ok planW ∧
    (planW.budget.within_budget.truthy = true ∧
     planW.budget.budget_limit = 20000 ∧
     planW.metadata.attempts = (runT pjW rpW envOkW rawW 2).2.length) :=
  ⟨rfl, rfl, c9_final_plan_invariants pjW rpW envOkW rawW 2 planW 20000 rfl rfl⟩

/-- C1 counterexample: with `max_retries = 3` and a model that reports
over-budget on every attempt, the working budgets are
`[10000, 8500, 8500]` — attempt 2 runs with `int(10000 * 0.85) = 8500`
again, not with `10000 × 0.85² = 7225` as the claimed formula
`original_budget × 0.85^k` prescribes for `k = 2`. -/
theorem c1_budget_formula_counterexample :
    (runT pjW rpW envOverW rawC1 3).2 = [10000, 8500, 8500] ∧
    (17 ^ 2 * 10000 / 20 ^ 2 : Int) = 7225 ∧
    ¬ ((8500 : Int) = 7225) :=
  ⟨rfl, by decide, by decide⟩

/-- C1 (amended): across attempts the working budget passed to stage 1 is
non-increasing; attempt 0 uses the original budget, and every later
attempt uses either the original budget (exception retries leave it
untouched) or `int(original_budget * 0.85)` — always computed from the
original, never compounded on the previous attempt's shrunk value. -/
theorem c1_budget_schedule_amended (pj rp : String → Option JValue)
    (env : Nat → Nat → StageOut) (raw : TripInputs) (mr : Nat) (b0 : Int)
    (hb : raw.budget = some b0) :
    (∀ x ∈ (runT pj rp env raw mr).2, x = b0 ∨ x = 17 * b0 / 20) ∧
    List.Pairwise (fun a b => b ≤ a) (runT pj rp env raw mr).2 ∧
    ((runT pj rp env raw mr).2 = [] ∨
     (runT pj rp env raw mr).2.head? = some b0) := by
  cases hv : validate_inputs raw with
  | error e =>
    rw [runT_eq_of_invalid pj rp env raw mr e hv]
    exact ⟨by simp, by simp, Or.inl rfl⟩
  | ok inputs =>
    have hbb := validate_inputs_budget raw inputs hv
    have hb0 : inputs.budget = b0 := by
      rw [hbb.1] at hb
      exact Option.some.inj hb
    have hpos : (0 : Int) < b0 := hb0 ▸ hbb.2
    cases hf : (validate_feasibility inputs.budget inputs.people inputs.duration).feasible with
    | false =>
      rw [runT_eq_of_infeasible pj rp env raw mr inputs _ hv
        (validate_feasibility_false _ _ _ hf)]
      exact ⟨by simp, by simp, Or.inl rfl⟩
    | true =>
      rw [runT_eq_of_valid pj rp env raw mr inputs hv hf, ← hb0]
      obtain ⟨m, n, hsh, hm⟩ :=
        runLoop_trace_shape pj rp env inputs.budget mr mr 0 inputs
      have hshr : shrunk_budget inputs.budget = 17 * inputs.budget / 20 := rfl
      have hpos' : (0 : Int) < inputs.budget := hbb.2
      have hs_le : 17 * inputs.budget / 20 ≤ inputs.budget := by
        have h1 : 17 * inputs.budget ≤ 20 * inputs.budget := by nlinarith
        calc 17 * inputs.budget / 20 ≤ 20 * inputs.budget / 20 :=
              Int.ediv_le_ediv (by norm_num) h1
          _ = inputs.budget := by
              rw [Int.mul_ediv_cancel_left _ (by norm_num : (20 : Int) ≠ 0)]
      rcases hm with htr | hmpos
      · rw [htr]
        exact ⟨by simp, by simp, Or.inl rfl⟩
      · have hmem : ∀ x ∈ (runLoop pj rp env inputs.budget mr mr 0 inputs).2,
            x = inputs.budget ∨ x = 17 * inputs.budget / 20 := by
          intro x hx
          rw [hsh] at hx
          rcases List.mem_append.mp hx with hx | hx
          · exact Or.inl (List.eq_of_mem_replicate hx)
          · exact Or.inr (by rw [List.eq_of_mem_replicate hx, hshr])
        have hpair : List.Pairwise (fun a b => b ≤ a)
            (runLoop pj rp env inputs.budget mr mr 0 inputs).2 := by
          rw [hsh, List.pairwise_append]
          refine ⟨List.pairwise_replicate.mpr (Or.inr le_rfl),
                  List.pairwise_replicate.mpr (Or.inr le_rfl), ?_⟩
          intro a ha b hbmem
          rw [List.eq_of_mem_replicate ha, List.eq_of_mem_replicate hbmem, hshr]
          exact hs_le
        have hhead : (runLoop pj rp env inputs.budget mr mr 0 inputs).2.head? =
            some inputs.budget := by
          rw [hsh]
          cases m with
          | zero => omega
          | succ m' => simp [List.replicate_succ]
        exact ⟨hmem, hpair, Or.inr hhead⟩

theorem c1_budget_schedule_amended_witness :
    rawC1.budget = some 10000 ∧
    (∀ x ∈ (runT pjW rpW envOverW rawC1 3).2, x = 10000 ∨ x = 17 * 10000 / 20) ∧
    List.Pairwise (fun a b => b ≤ a) (runT pjW rpW envOverW rawC1 3).2 :=
  ⟨rfl,
   (c1_budget_schedule_amended pjW rpW envOverW rawC1 3 10000 rfl).1,
   (c1_budget_schedule_amended pjW rpW envOverW rawC1 3 10000 rfl).2.1⟩

/-- Navigation part of the auditor on the excerpt shape `run` builds:
the wrapper dict is unpacked and only the category checks remain. -/
theorem audit_mk_unfold (bd : JValue) (total : Int) (req : ReqInputs) :
    validate_budget_realistic
        (.obj [("budget", .obj [("plan", bd), ("total_cost", .num total)])]) req =
      (accomIssues bd req.duration).bind (fun issues_acc =>
        (mealIssues bd req.people req.duration).bind (fun issues_meals =>
          some (
            let issues :=
              (if total < req.people * req.duration * 1000
               then [total_issue total (req.people * req.duration * 1000)] else []) ++
              issues_acc ++ issues_meals
            { realistic := issues.length == 0, issues := issues }))) := rfl

theorem accomIssues_mk_none (meals : Option (List Int)) (d : Int) :
    accomIssues (mkBudgetData none meals) d = some [] := by
  cases meals <;> rfl

theorem accomIssues_mk_some (l : List Int) (meals : Option (List Int)) (d : Int) :
    accomIssues (mkBudgetData (some l) meals) d =
      some (if 0 < l.length ∧ l.sum < d * 800
            then [acc_issue l.sum (d * 800) d] else []) := by
  cases l with
  | nil =>
    cases meals <;> simp [accomIssues, mkBudgetData, pyIn, jget]
  | cons c cs =>
    have hb : accomIssues (mkBudgetData (some (c :: cs)) meals) d =
        (sumCosts ((c :: cs).map costItem)).bind (fun acc_total =>
          some (if acc_total < d * 800
                then [acc_issue acc_total (d * 800) d] else [])) := by
      have h1 : accomIssues (mkBudgetData (some (c :: cs)) meals) d =
          (if 0 < ((c :: cs).map costItem).length then
            (sumCosts ((c :: cs).map costItem)).bind (fun acc_total =>
              some (if acc_total < d * 800
                    then [acc_issue acc_total (d * 800) d] else []))
          else some []) := by
        cases meals <;> rfl
      rw [h1, if_pos (by simp)]
    rw [hb, sumCosts_map_costItem]
    show some (if (c :: cs).sum < d * 800
               then [acc_issue (c :: cs).sum (d * 800) d] else []) =
         some (if 0 < (c :: cs).length ∧ (c :: cs).sum < d * 800
               then [acc_issue (c :: cs).sum (d * 800) d] else [])
    by_cases hs : (c :: cs).sum < d * 800
    · rw [if_pos hs, if_pos ⟨by simp, hs⟩]
    · rw [if_neg hs, if_neg (fun hc => hs hc.2)]

theorem mealIssues_mk_none (acc : Option (List Int)) (p d : Int) :
    mealIssues (mkBudgetData acc none) p d = some [] := by
  cases acc <;> rfl

theorem mealIssues_mk_some (acc : Option (List Int)) (l : List Int) (p d : Int) :
    mealIssues (mkBudgetData acc (some l)) p d =
      some (if l.sum < p * d * 3 * 150
            then [meal_issue l.sum (p * d * 3 * 150)] else []) := by
  have hb : mealIssues (mkBudgetData acc (some l)) p d =
      (sumCosts (l.map costItem)).bind (fun meal_total =>
        some (if meal_total < p * d * 3 * 150
              then [meal_issue meal_total (p * d * 3 * 150)] else [])) := by
    cases acc <;> rfl
  rw [hb, sumCosts_map_costItem]
  rfl

/-- C4 counterexample: a plan whose accommodation category is present as an
empty list reports the sum 0, below the floor `duration * 800`, yet the
auditor appends no issue and returns `realistic=true` with an empty issues
list — the `len(acc_items) > 0` guard of `flow.py` line 73 skips the
category, contradicting the claim that every present below-floor category
yields an issue. -/
theorem c4_empty_accommodation_counterexample :
    validate_budget_realistic (mkAuditPlan (some []) none 1000000) reqW =
      some { realistic := true, issues := [] } ∧
    pyIn "accommodation" (mkBudgetData (some []) none) = some true ∧
    sumCosts [] = some 0 ∧
    ((0 : Int) < reqW.duration * 800) :=
  ⟨rfl, rfl, rfl, by decide⟩

/-- C4 (amended): on well-typed plan excerpts the auditor appends exactly
one issue per checked category whose reported sum is below its floor —
overall total below `people × duration × 1000`; accommodation (summed over
`cost` keys) below `duration × 800`, but only when the accommodation list
is non-empty, an empty list being skipped; meals below
`people × duration × 3 × 150`, an empty meals list included — and returns
`realistic = true` exactly when the issues list is empty. -/
theorem c4_audit_floors_amended (acc meals : Option (List Int)) (total : Int)
    (req : ReqInputs) :
    validate_budget_realistic (mkAuditPlan acc meals total) req =
      some (
        let issues :=
          (if total < req.people * req.duration * 1000
           then [total_issue total (req.people * req.duration * 1000)] else []) ++
          (match acc with
           | some l =>
             if 0 < l.length ∧ l.sum < req.duration * 800
             then [acc_issue l.sum (req.duration * 800) req.duration] else []
           | none => []) ++
          (match meals with
           | some l =>
             if l.sum < req.people * req.duration * 3 * 150
             then [meal_issue l.sum (req.people * req.duration * 3 * 150)] else []
           | none => [])
        { realistic := issues.length == 0, issues := issues }) := by
  rw [mkAuditPlan, audit_mk_unfold]
  cases acc with
  | none =>
    rw [accomIssues_mk_none]
    cases meals with
    | none =>
      rw [mealIssues_mk_none]
      rfl
    | some lm =>
      rw [mealIssues_mk_some]
      rfl
  | some la =>
    rw [accomIssues_mk_some]
    cases meals with
    | none =>
      rw [mealIssues_mk_none]
      rfl
    | some lm =>
      rw [mealIssues_mk_some]
      rfl

/-- Toy `json.loads` for the fence-glue counterexample: parses exactly the
array body `[1]`. -/
def pjC6 : String → Option JValue := fun t =>
  if t = "[1]" then some (.arr [.num 1]) else none

/-- Toy `json.loads` for the C6 witness: parses the two candidate bodies
occurring in the examples (a bare number, and content holding an isolated
backtick). -/
def pjC6w : String → Option JValue := fun t =>
  if t = "42" then some (.num 42)
  else if t = "a`b" then some (.str "backtick-content") else none

/-- C6 counterexample: in `"```json[1]````json"` the content between the
first ` ```json ` fence and the next ` ``` ` fence is `[1]` (the spec-side
`specFencedContent`), but the split-based extractor truncates at the second
` ```json ` occurrence instead and feeds the unparseable `[1]`` ` to the
parser, falling through to the raw-output fallback rather than returning
the parsed fenced object. -/
theorem c6_fence_glue_counterexample :
    specFencedContent "```json[1]````json" = some "[1]" ∧
    extractCandidate "```json[1]````json" = "[1]`" ∧
    pjC6 "[1]" = some (.arr [.num 1]) ∧
    parseResult pjC6 rpW "```json[1]````json" =
      .obj [("raw_output", .str "```json[1]````json")] ∧
    JValue.obj [("raw_output", .str "```json[1]````json")] ≠
      JValue.arr [JValue.num 1] :=
  ⟨rfl, rfl, rfl, rfl, by simp⟩

/-- C6 (amended): the extractor parses, in order, (1) when a ` ```json `
tag occurs — its first occurrence at index `i`, the first ` ``` ` fence of
the remainder after it `j` characters later — the stripped content between
tag and closing fence (identified with the spec-side `specFencedContent`),
whatever prose surrounds them and whatever isolated backticks the content
holds, provided no ` ```json ` occurrence of the remainder starts strictly
inside the closing fence (`q = j + 1` / `q = j + 2`: the fence glued into
a following tag by one or two stray backticks, see the counterexample);
(2) with no json tag anywhere, the stripped content of the first fenced
block — between the first ` ``` ` fence and the next one; (3) with no
fence at all, the whole text, unstripped. -/
theorem c6_fence_extraction_amended (pj rp : String → Option JValue) :
    (∀ (s : String) (i j : Nat) (v : JValue),
       firstOccIdx jfenceChars s.toList = some i →
       firstOccIdx tfenceChars (s.toList.drop (i + 7)) = some j →
       (∀ q, firstOccIdx jfenceChars (s.toList.drop (i + 7)) = some q →
         q = j ∨ j + 3 ≤ q) →
       pj ((pystrip ((s.toList.drop (i + 7)).take j)).asString) = some v →
       specFencedContent s =
         some ((pystrip ((s.toList.drop (i + 7)).take j)).asString) ∧
       parseResult pj rp s = v) ∧
    (∀ (s : String) (i j : Nat) (v : JValue),
       pyContainsChars jfenceChars s.toList = false →
       firstOccIdx tfenceChars s.toList = some i →
       firstOccIdx tfenceChars (s.toList.drop (i + 3)) = some j →
       pj ((pystrip ((s.toList.drop (i + 3)).take j)).asString) = some v →
       parseResult pj rp s = v) ∧
    (∀ (s : String) (v : JValue),
       pyContainsChars tfenceChars s.toList = false →
       pj s = some v →
       parseResult pj rp s = v) := by
  refine ⟨?_, ?_, ?_⟩
  · intro s i j v hi hj hglue hpj
    refine ⟨specFencedContent_of_idx s i j hi hj, ?_⟩
    unfold parseResult
    simp only [extract_b1_general s i j hi hj hglue, hpj]
  · intro s i j v hnj hi hj hpj
    unfold parseResult
    simp only [extract_b2_general s i j hnj hi hj, hpj]
  · intro s v ht hpj
    unfold parseResult
    simp only [extract_branch3 s ht, hpj]

theorem c6_fence_extraction_amended_witness :
    parseResult pjC6w rpW "```python x=1 ``` and ```json 42 ```" = JValue.num 42 ∧
    (specFencedContent "```json a`b ``` tail" = some "a`b" ∧
      parseResult pjC6w rpW "```json a`b ``` tail" =
        JValue.str "backtick-content") ∧
    parseResult pjC6w rpW "pre ``` 42 ``` post" = JValue.num 42 ∧
    parseResult pjC6w rpW "42" = JValue.num 42 :=
  ⟨((c6_fence_extraction_amended pjC6w rpW).1 "```python x=1 ``` and ```json 42 ```"
      22 4 (JValue.num 42) (by decide) (by decide)
      (by
        intro q hq
        have hnone : firstOccIdx jfenceChars
            ("```python x=1 ``` and ```json 42 ```".toList.drop (22 + 7)) = none := by
          decide
        rw [hnone] at hq
        exact Option.noConfusion hq)
      rfl).2,
   (c6_fence_extraction_amended pjC6w rpW).1 "```json a`b ``` tail"
      0 5 (JValue.str "backtick-content") (by decide) (by decide)
      (by
        intro q hq
        have hnone : firstOccIdx jfenceChars
            ("```json a`b ``` tail".toList.drop (0 + 7)) = none := by decide
        rw [hnone] at hq
        exact Option.noConfusion hq)
      rfl,
   (c6_fence_extraction_amended pjC6w rpW).2.1 "pre ``` 42 ``` post"
      4 4 (JValue.num 42) (by decide) (by decide) (by decide) rfl,
   (c6_fence_extraction_amended pjC6w rpW).2.2 "42" (JValue.num 42) (by decide) rfl⟩

end Itinera
